import Mathlib

/-!
Shallow embedding of the heading/title inference pipeline of `src/main.py`
(PDF outline extractor), together with proofs settling the frozen claims.

Modelling conventions:
* Python strings are `String` (lists of characters); all concrete inputs used
  in witnesses/counterexamples are ASCII (plus the literal `’`, `–` characters
  occurring in the source's tables), so the ASCII case-folding used below
  agrees with Python's on every character that actually occurs.
* Python floats are modelled as `ℚ` (the source only compares and adds small
  decimal literals; no float-rounding behaviour is load-bearing at the
  thresholds exercised here).
* `re.match` based pattern tests are modelled by a small executable regex
  interpreter (`Re`) faithful to the constructs appearing in the source
  (anchored match, char classes, `* + ? {n} {n,}`, alternation, `$`,
  `re.IGNORECASE`).  All quantifiers in the source's patterns apply to single
  character classes, which the AST mirrors.
* `difflib.SequenceMatcher.ratio()` is embedded by the actual difflib
  algorithm (b2j index map, longest-match dynamic scan with extension, total
  matched characters over the recursive block decomposition).  Autojunk is
  vacuous at the only call site (the fixed reference string has 41 < 200
  characters), so no junk handling is needed.
* PDF parsing (`fitz`) and language detection (`langdetect`) are external
  collaborators: `extract_spans` is modelled over an abstract page/block
  structure carrying exactly the fields the source reads, and the detected
  language is a parameter of the per-document pipeline `main_process`.
-/

/-! ### Python string primitives -/

/-- Splitter on a separator character, accumulating the current piece in
reverse (helper for Python `text.split("\n")`). -/
def splitChGo (sep : Char) (cur : List Char) : List Char → List String
  | [] => [cur.reverse.asString]
  | c :: rest =>
    if c = sep then cur.reverse.asString :: splitChGo sep [] rest
    else splitChGo sep (c :: cur) rest

/-- Python `text.split("\n")` (keeps empty pieces). -/
def splitNl (s : String) : List String := splitChGo '\n' [] s.data

/-- Python's whitespace set for `str.strip()` / `\s` (ASCII range). -/
def pyWs (c : Char) : Bool :=
  c = ' ' || c = '\t' || c = '\n' || c = '\r' || c = '\x0b' || c = '\x0c'

/-- ASCII lower-casing of one character (Python `str.lower()` on ASCII). -/
def lowerA (c : Char) : Char :=
  if 'A' ≤ c && c ≤ 'Z' then Char.ofNat (c.toNat + 32) else c

/-- ASCII upper-casing of one character (Python `str.upper()` on ASCII). -/
def upperA (c : Char) : Char :=
  if 'a' ≤ c && c ≤ 'z' then Char.ofNat (c.toNat - 32) else c

/-- Python `s.lower()` (ASCII). -/
def pyLower (s : String) : String := ⟨s.data.map lowerA⟩

/-- Python `s.upper()` (ASCII). -/
def pyUpper (s : String) : String := ⟨s.data.map upperA⟩

/-- Strip Python whitespace from both ends of a character list. -/
def pyStripL (l : List Char) : List Char :=
  ((l.dropWhile pyWs).reverse.dropWhile pyWs).reverse

/-- Python `s.strip()`. -/
def pyStrip (s : String) : String := ⟨pyStripL s.data⟩

/-- Substring containment on character lists (Python `needle in hay`). -/
def containsL (needle : List Char) : List Char → Bool
  | [] => needle.isEmpty
  | c :: rest => needle.isPrefixOf (c :: rest) || containsL needle rest

/-- Python `needle in hay` for strings. -/
def strIn (needle hay : String) : Bool := containsL needle.data hay.data

/-- Python `s.endswith(suffix)`. -/
def pyEndsWith (s suffix : String) : Bool :=
  suffix.data.reverse.isPrefixOf s.data.reverse

/-- Python `s.startswith(p)`. -/
def pyStartsWith (s p : String) : Bool := p.data.isPrefixOf s.data

/-- Split a character list on runs of Python whitespace (`str.split()` with
no arguments): leading/trailing whitespace ignored, no empty words. -/
def wordsLGo (cur : List Char) : List Char → List (List Char)
  | [] => if cur.isEmpty then [] else [cur.reverse]
  | c :: rest =>
    if pyWs c then
      if cur.isEmpty then wordsLGo [] rest else cur.reverse :: wordsLGo [] rest
    else wordsLGo (c :: cur) rest

/-- Python `s.split()` (whitespace words). -/
def pyWords (s : String) : List String := (wordsLGo [] s.data).map List.asString

/-- Python `str.isupper()` on ASCII: at least one cased character and no
lower-case cased character. -/
def pyIsUpper (s : String) : Bool :=
  s.data.any (fun c => c.isAlpha) && !(s.data.any (fun c => 'a' ≤ c && c ≤ 'z'))

/-- Python `" ".join(l)`. -/
def joinSpace (l : List String) : String := String.intercalate " " l

/-- Replace each maximal whitespace run by a single `' '`
(`re.sub(r'\s+', ' ', s)`), with a flag telling whether the previous
character was part of a whitespace run. -/
def collapseWsGo : Bool → List Char → List Char
  | _, [] => []
  | prevWs, c :: rest =>
    if pyWs c then
      if prevWs then collapseWsGo true rest else ' ' :: collapseWsGo true rest
    else c :: collapseWsGo false rest

/-- Model of `re.sub(r'\s+', ' ', s)`. -/
def collapseWs (l : List Char) : List Char := collapseWsGo false l

/-- ASCII alphanumeric test (the class `[A-Za-z0-9]`). -/
def isAlnumA (c : Char) : Bool :=
  ('A' ≤ c && c ≤ 'Z') || ('a' ≤ c && c ≤ 'z') || ('0' ≤ c && c ≤ '9')

/-! ### Regex interpreter

The source's pattern tests are all `re.match(p, text[, re.IGNORECASE])`,
i.e. anchored at the start, succeeding when some prefix matches.  Every
quantifier in the source's patterns applies to a single character class, so
the AST stores quantified atoms as character classes and the matcher is a
plain structural backtracking interpreter. -/

/-- One item occurring inside a regex bracket expression. -/
inductive CCItem where
  | ch (c : Char)
  | range (lo hi : Char)
  | digit
  | space
  | word
deriving Repr, DecidableEq

/-- Character classes appearing in the source's patterns: `.` (any char but
newline), a literal, `\d`, `\s`, `\w`, and positive/negated bracket
expressions. -/
inductive CC where
  | any
  | lit (c : Char)
  | digit
  | space
  | word
  | pos (items : List CCItem)
  | npos (items : List CCItem)
deriving Repr, DecidableEq

/-- Raw membership of a character in one bracket item (no case folding). -/
def CCItem.mem (c : Char) : CCItem → Bool
  | .ch c' => c = c'
  | .range lo hi => lo ≤ c && c ≤ hi
  | .digit => '0' ≤ c && c ≤ '9'
  | .space => pyWs c
  | .word => isAlnumA c || c = '_'

/-- Raw membership of a character in a character class (no case folding). -/
def CC.memRaw (c : Char) : CC → Bool
  | .any => c ≠ '\n'
  | .lit c' => c = c'
  | .digit => '0' ≤ c && c ≤ '9'
  | .space => pyWs c
  | .word => isAlnumA c || c = '_'
  | .pos items => items.any (CCItem.mem c)
  | .npos items => !(items.any (CCItem.mem c))

/-- Character-class test; with `ci` (`re.IGNORECASE`) a character matches
when it or one of its ASCII case variants does. -/
def CC.test (ci : Bool) (cc : CC) (c : Char) : Bool :=
  if ci then cc.memRaw c || cc.memRaw (lowerA c) || cc.memRaw (upperA c)
  else cc.memRaw c

/-- Regex abstract syntax mirroring the constructs used in `src/main.py`.
`repE n` is `{n}`, `repL n` is `{n,}`; `eos` is `$`. -/
inductive Re where
  | eps
  | one (c : CC)
  | seq (a b : Re)
  | alt (a b : Re)
  | star (c : CC)
  | plus (c : CC)
  | repE (n : Nat) (c : CC)
  | repL (n : Nat) (c : CC)
  | opt (a : Re)
  | eos
deriving Repr

/-- Backtracking loop for `c*`: succeed on the continuation now or consume
one more matching character. -/
def starLoop (ci : Bool) (c : CC) (k : List Char → Bool) : List Char → Bool
  | [] => k []
  | a :: rest => k (a :: rest) || (CC.test ci c a && starLoop ci c k rest)

/-- Exactly `n` repetitions of class `c`, then the continuation. -/
def repLoop (ci : Bool) (c : CC) (k : List Char → Bool) : Nat → List Char → Bool
  | 0, s => k s
  | _ + 1, [] => false
  | n + 1, a :: rest => CC.test ci c a && repLoop ci c k n rest

/-- Continuation-passing matcher: `r.run ci s k` holds when some split
`s = u ++ v` has `u` matching `r` and `k v`. -/
def Re.run (ci : Bool) : Re → List Char → (List Char → Bool) → Bool
  | .eps, s, k => k s
  | .one _, [], _ => false
  | .one c, a :: rest, k => CC.test ci c a && k rest
  | .seq p q, s, k => p.run ci s (fun s' => q.run ci s' k)
  | .alt p q, s, k => p.run ci s k || q.run ci s k
  | .star c, s, k => starLoop ci c k s
  | .plus _, [], _ => false
  | .plus c, a :: rest, k => CC.test ci c a && starLoop ci c k rest
  | .repE n c, s, k => repLoop ci c k n s
  | .repL n c, s, k => repLoop ci c (fun s' => starLoop ci c k s') n s
  | .opt p, s, k => p.run ci s k || k s
  | .eos, s, k => (s.isEmpty || s = ['\n']) && k s

/-- Truthiness of `re.match(r, s)`: anchored at the start, any prefix. -/
def reMatch (ci : Bool) (r : Re) (s : String) : Bool :=
  r.run ci s.data (fun _ => true)

/-- Sequence a list of regexes. -/
def Re.cat : List Re → Re
  | [] => .eps
  | [r] => r
  | r :: rs => .seq r (Re.cat rs)

/-- Alternation of a list of regexes (`(a|b|c)`); empty list never matches
(unused). -/
def Re.alts : List Re → Re
  | [] => .one (.pos [])
  | [r] => r
  | r :: rs => .alt r (Re.alts rs)

/-- A literal string as a regex. -/
def Re.str (s : String) : Re := Re.cat (s.data.map (fun c => Re.one (.lit c)))

/-! ### The source's regex patterns -/

/-- The class `[A-Z]`. -/
def ccAZ : CC := .pos [.range 'A' 'Z']

/-- The class `[a-z]`. -/
def ccaz : CC := .pos [.range 'a' 'z']

/-- Regex `\d+\.\s+` (used by the scorer, `^\d+\.\s+`). -/
def reNumDot : Re := .cat [.plus .digit, .one (.lit '.'), .plus .space]

/-- Regex `^\d+\.\d+\s+` (scorer subsection pattern). -/
def reNumNum : Re :=
  .cat [.plus .digit, .one (.lit '.'), .plus .digit, .plus .space]

/-- Regex `.*:\s*$` (colon-terminated line). -/
def reColonEnd : Re := .cat [.star .any, .one (.lit ':'), .star .space, .eos]

/-- Regex `^\d+\.\s+[A-Z]`. -/
def reP_numSec : Re := .cat [.plus .digit, .one (.lit '.'), .plus .space, .one ccAZ]

/-- Regex `^\d+\.\d+\s+[A-Z]`. -/
def reP_numSub : Re :=
  .cat [.plus .digit, .one (.lit '.'), .plus .digit, .plus .space, .one ccAZ]

/-- Regex `^\d+\.\d+\.\d+\s+[A-Z]`. -/
def reP_numSubSub : Re :=
  .cat [.plus .digit, .one (.lit '.'), .plus .digit, .one (.lit '.'),
        .plus .digit, .plus .space, .one ccAZ]

/-- Regex `^(Chapter|Section|Part)\s+\d+`. -/
def reP_chapter : Re :=
  .cat [.alts [.str "Chapter", .str "Section", .str "Part"], .plus .space, .plus .digit]

/-- Regex `^Appendix\s+[A-Z]`. -/
def reP_appendix : Re := .cat [.str "Appendix", .plus .space, .one ccAZ]

/-- Regex `^(Abstract|Introduction|Overview|Summary|Background|Conclusion|References|Bibliography|Acknowledgements?|Table\s+of\s+Contents|Revision\s+History)$`. -/
def reP_named : Re :=
  .cat [.alts [.str "Abstract", .str "Introduction", .str "Overview", .str "Summary",
               .str "Background", .str "Conclusion", .str "References", .str "Bibliography",
               .cat [.str "Acknowledgement", .opt (.one (.lit 's'))],
               .cat [.str "Table", .plus .space, .str "of", .plus .space, .str "Contents"],
               .cat [.str "Revision", .plus .space, .str "History"]], .eos]

/-- The class `[A-Z\s&:-]`. -/
def ccCapsRun : CC := .pos [.range 'A' 'Z', .space, .ch '&', .ch ':', .ch '-']

/-- Regex `^[A-Z][A-Z\s&:-]{6,}$`. -/
def reP_allCaps6 : Re := .cat [.one ccAZ, .repL 6 ccCapsRun, .eos]

/-- Regex `^[A-Z][A-Z\s&:-]{10,}$` (level classifier's long ALL CAPS). -/
def reP_allCaps10 : Re := .cat [.one ccAZ, .repL 10 ccCapsRun, .eos]

/-- Regex `^Phase\s+[IVX]+:`. -/
def reP_phase : Re :=
  .cat [.str "Phase", .plus .space, .plus (.pos [.ch 'I', .ch 'V', .ch 'X']), .one (.lit ':')]

/-- Regex `^For\s+(each|the)\s+\w+.*:$`. -/
def reP_forEach : Re :=
  .cat [.str "For", .plus .space, .alts [.str "each", .str "the"], .plus .space,
        .plus .word, .star .any, .one (.lit ':'), .eos]

/-- Regex `^What\s+.*\?$`. -/
def reP_what : Re :=
  .cat [.str "What", .plus .space, .star .any, .one (.lit '?'), .eos]

/-- Regex `^[A-Z][a-z]+\s+OPTIONS?$`. -/
def reP_options : Re :=
  .cat [.one ccAZ, .plus ccaz, .plus .space, .str "OPTION", .opt (.one (.lit 'S')), .eos]

/-- Regex `^(HOPE|WELCOME|THANK).*$`. -/
def reP_hope : Re :=
  .cat [.alts [.str "HOPE", .str "WELCOME", .str "THANK"], .star .any, .eos]

/-- Regex `^[A-Z].*\s+(Library|Digital|Component|Plan)$`. -/
def reP_majorTopic : Re :=
  .cat [.one ccAZ, .star .any, .plus .space,
        .alts [.str "Library", .str "Digital", .str "Component", .str "Plan"], .eos]

/-- Regex `^Milestones?$`. -/
def reP_milestones : Re := .cat [.str "Milestone", .opt (.one (.lit 's')), .eos]

/-- Regex `^Approach\s+and\s+`. -/
def reP_approach : Re := .cat [.str "Approach", .plus .space, .str "and", .plus .space]

/-- Regex `^Evaluation\s+and\s+`. -/
def reP_evaluation : Re := .cat [.str "Evaluation", .plus .space, .str "and", .plus .space]

/-- Regex `^Business\s+Plan`. -/
def reP_business : Re := .cat [.str "Business", .plus .space, .str "Plan"]

/-- Regex `^\d+\)\s+[A-Z]`. -/
def reP_numParen : Re :=
  .cat [.plus .digit, .one (.lit ')'), .plus .space, .one ccAZ]

/-- Regex `^[-*•]\s+[A-Z]`. -/
def reP_bullet : Re :=
  .cat [.one (.pos [.ch '-', .ch '*', .ch '•']), .plus .space, .one ccAZ]

/-- Regex `^[A-Z][A-Za-z\s\-:&]+[.:]?\s*$`. -/
def reP_titleCase : Re :=
  .cat [.one ccAZ,
        .plus (.pos [.range 'A' 'Z', .range 'a' 'z', .space, .ch '-', .ch ':', .ch '&']),
        .opt (.one (.pos [.ch '.', .ch ':'])), .star .space, .eos]

/-- The `exclude_patterns` list of `is_likely_heading` (all matched with
`re.IGNORECASE`):
`^Page\s+\d+`, `^Copyright`, `^Version\s+\d`, `^\d{4}$`, `^www\.|^http`,
`@\w+\.`, `^\d+\s*$`, `^[^\w\s]*$`, `^\([^)]*\)$`, `^[\d\s\-\.]+$`,
`^(CLOSED|PLEASE|VISIT|REQUIRED|CLIMBING)`, `.*[.!?]\s+.*[.!?]`. -/
def exclude_patterns : List Re :=
  [ .cat [.str "Page", .plus .space, .plus .digit],
    .str "Copyright",
    .cat [.str "Version", .plus .space, .one .digit],
    .cat [.repE 4 .digit, .eos],
    .alt (.str "www.") (.str "http"),
    .cat [.one (.lit '@'), .plus .word, .one (.lit '.')],
    .cat [.plus .digit, .star .space, .eos],
    .cat [.star (.npos [.word, .space]), .eos],
    .cat [.one (.lit '('), .star (.npos [.ch ')']), .one (.lit ')'), .eos],
    .cat [.plus (.pos [.digit, .space, .ch '-', .ch '.']), .eos],
    .alts [.str "CLOSED", .str "PLEASE", .str "VISIT", .str "REQUIRED", .str "CLIMBING"],
    .cat [.star .any, .one (.pos [.ch '.', .ch '!', .ch '?']), .plus .space,
          .star .any, .one (.pos [.ch '.', .ch '!', .ch '?'])] ]

/-- The `heading_patterns` list of `is_likely_heading` (with `re.IGNORECASE`). -/
def heading_patterns : List Re :=
  [ reP_numSec, reP_numSub, reP_numSubSub,
    reP_chapter, reP_appendix,
    reP_named,
    reP_allCaps6, reColonEnd, reP_phase,
    reP_forEach, reP_what, reP_options,
    reP_hope, reP_majorTopic,
    reP_milestones, reP_approach, reP_evaluation, reP_business,
    reP_numParen, reP_bullet, reP_titleCase ]

/-- The `h1_patterns` of `classify_heading_level`. -/
def h1_patterns : List Re :=
  [ reP_numSec, reP_named, reP_appendix, reP_allCaps10,
    reP_options, reP_hope, reP_majorTopic, reP_business ]

/-- The `h2_patterns` of `classify_heading_level`:
`^\d+\.\d+\s+[A-Z]`, `^(Milestones?|Summary|Background)$`,
`^Approach\s+and\s+`, `^Evaluation\s+and\s+`, `^Appendix\s+[A-Z]:`. -/
def h2_patterns : List Re :=
  [ reP_numSub,
    .cat [.alts [.cat [.str "Milestone", .opt (.one (.lit 's'))],
                 .str "Summary", .str "Background"], .eos],
    reP_approach, reP_evaluation,
    .cat [.str "Appendix", .plus .space, .one ccAZ, .one (.lit ':')] ]

/-- The `h3_patterns` of `classify_heading_level`:
`^\d+\.\d+\.\d+\s+[A-Z]`, `^Phase\s+[IVX]+:`, `.*:\s*$`, `^\d+\.\s+[A-Z].*`. -/
def h3_patterns : List Re :=
  [ reP_numSubSub, reP_phase, reColonEnd,
    .cat [.plus .digit, .one (.lit '.'), .plus .space, .one ccAZ, .star .any] ]

/-- The `h4_patterns` of `classify_heading_level`: `^For\s+(each|the)\s+\w+.*:$`. -/
def h4_patterns : List Re := [reP_forEach]

/-- The Spanish heading pattern of `main`:
`^(Resumen|Introducción|Conclusión|Referencias|Índice|Capítulo|Sección|Anexo)`
(with `re.IGNORECASE`). -/
def esPattern : Re :=
  .alts [.str "Resumen", .str "Introducción", .str "Conclusión", .str "Referencias",
         .str "Índice", .str "Capítulo", .str "Sección", .str "Anexo"]

/-! ### Kernel-evaluable rational arithmetic

Batteries marks `Rat.add` / `Rat.mul` `@[irreducible]`, which blocks
`decide` on concrete pipeline runs; the embedding therefore computes with
`Rat.divInt` based operations, proved equal to the standard ones. -/

/-- Addition on `ℚ` via `Rat.divInt` (kernel-evaluable). -/
def qAdd (a b : ℚ) : ℚ :=
  Rat.divInt (a.num * (b.den : Int) + b.num * (a.den : Int)) ((a.den : Int) * (b.den : Int))

/-- Multiplication on `ℚ` via `Rat.divInt` (kernel-evaluable). -/
def qMul (a b : ℚ) : ℚ := Rat.divInt (a.num * b.num) ((a.den : Int) * (b.den : Int))

/-- Division on `ℚ` via `Rat.divInt` (kernel-evaluable). -/
def qDiv (a b : ℚ) : ℚ := Rat.divInt (a.num * (b.den : Int)) ((a.den : Int) * b.num)

/-- Embedding of a `Nat` into `ℚ` (kernel-evaluable). -/
def natQ (n : Nat) : ℚ := Rat.divInt n 1

/-- Sum of a list of rationals (Python `sum`). -/
def qSum (l : List ℚ) : ℚ := l.foldl qAdd 0

theorem qAdd_eq (a b : ℚ) : qAdd a b = a + b := by
  rw [qAdd, Rat.add_def', Rat.mkRat_eq_divInt, Int.natCast_mul]

theorem qMul_eq (a b : ℚ) : qMul a b = a * b := by
  rw [qMul, Rat.mul_def, Rat.normalize_eq_mkRat, Rat.mkRat_eq_divInt, Int.natCast_mul]

theorem qDiv_eq (a b : ℚ) : qDiv a b = a / b := (Rat.div_def' a b).symm

theorem natQ_eq (n : Nat) : natQ n = (n : ℚ) := by
  rw [natQ, Rat.divInt_one]
  norm_num

/-! ### difflib.SequenceMatcher (ratio only)

`extract_document_title` compares each line against the fixed 41-character
reference title with `SequenceMatcher(None, a, b).ratio() > 0.8`.  The
reference string is shorter than 200 characters, so difflib's autojunk is
vacuous and no junk handling appears below. -/

/-- Positions (ascending) of character `c` in `b` (difflib's `b2j`). -/
def b2j (b : List Char) (c : Char) : List Nat :=
  (b.enum.filter (fun p => p.2 = c)).map Prod.fst

/-- Association-list lookup with default 0 (`dict.get(k, 0)`). -/
def alGet (m : List (Nat × Nat)) (k : Nat) : Nat :=
  match m.find? (fun p => p.1 = k) with
  | some p => p.2
  | none => 0

/-- Inner loop of difflib's `find_longest_match` for one `i`: scan the
positions `js` of `a[i]` in `b` (ascending, already restricted to
`[blo, bhi)`), building `newj2len` and updating the best block, where
`k = j2len.get(j-1, 0) + 1` is the length of the common run ending at
`(i, j)`. -/
def flmInner (i : Nat) (j2len : List (Nat × Nat)) (js : List Nat) :
    List (Nat × Nat) × (Nat × Nat × Nat) → List (Nat × Nat) × (Nat × Nat × Nat) :=
  fun st =>
    js.foldl (fun (st : List (Nat × Nat) × (Nat × Nat × Nat)) j =>
      let k := (if j = 0 then 0 else alGet j2len (j - 1)) + 1
      let nl := st.1 ++ [(j, k)]
      let best := if k > st.2.2.2 then (i + 1 - k, j + 1 - k, k) else st.2
      (nl, best)) st

/-- Core dynamic scan of difflib's `find_longest_match` over
`a[alo:ahi]`, `b[blo:bhi]`: returns `(besti, bestj, bestsize)` before the
extension passes. -/
def flmScan (a b : List Char) (alo ahi blo bhi : Nat) : Nat × Nat × Nat :=
  (((List.range (ahi - alo)).map (· + alo)).foldl
    (fun (st : List (Nat × Nat) × (Nat × Nat × Nat)) i =>
      let js := (b2j b (a.getD i ' ')).filter (fun j => blo ≤ j && j < bhi)
      let st' := flmInner i st.1 js ([], st.2)
      st')
    ([], (alo, blo, 0))).2

/-- Number of left-extension steps of a matching block (difflib's
`while besti > alo and bestj > blo and a[besti-1] == b[bestj-1]`),
computed with fuel `besti`. -/
def extLeftN (a b : List Char) (alo blo : Nat) : Nat → Nat → Nat → Nat
  | _, _, 0 => 0
  | besti, bestj, fuel + 1 =>
    if alo < besti && blo < bestj &&
        (a.getD (besti - 1) ' ' = b.getD (bestj - 1) ' ') then
      1 + extLeftN a b alo blo (besti - 1) (bestj - 1) fuel
    else 0

/-- Number of right-extension steps of a matching block (difflib's
`while besti+bestsize < ahi and ... a[besti+bestsize] == b[bestj+bestsize]`),
computed with fuel `ahi`. -/
def extRightN (a b : List Char) (ahi bhi besti bestj : Nat) : Nat → Nat → Nat
  | _, 0 => 0
  | sz, fuel + 1 =>
    if besti + sz < ahi && bestj + sz < bhi &&
        (a.getD (besti + sz) ' ' = b.getD (bestj + sz) ' ') then
      1 + extRightN a b ahi bhi besti bestj (sz + 1) fuel
    else 0

/-- difflib `find_longest_match(alo, ahi, blo, bhi)` (no junk): the dynamic
scan followed by the two extension passes. -/
def findLongestMatch (a b : List Char) (alo ahi blo bhi : Nat) : Nat × Nat × Nat :=
  let s := flmScan a b alo ahi blo bhi
  let nL := extLeftN a b alo blo s.1 s.2.1 s.1
  let besti := s.1 - nL
  let bestj := s.2.1 - nL
  let size := s.2.2 + nL
  let nR := extRightN a b ahi bhi besti bestj size ahi
  (besti, bestj, size + nR)

/-- Total number of matched characters over difflib's recursive
matching-block decomposition (the `matches` of `ratio()`), with fuel
bounding the recursion depth. -/
def matchTotal (a b : List Char) : Nat → Nat → Nat → Nat → Nat → Nat
  | 0, _, _, _, _ => 0
  | fuel + 1, alo, ahi, blo, bhi =>
    let m := findLongestMatch a b alo ahi blo bhi
    if m.2.2 = 0 then 0
    else
      m.2.2 + matchTotal a b fuel alo m.1 blo m.2.1 +
        matchTotal a b fuel (m.1 + m.2.2) ahi (m.2.1 + m.2.2) bhi

/-- difflib `SequenceMatcher(None, a, b).ratio()` as a rational:
`2*matches/(len(a)+len(b))`, `1.0` when both strings are empty. -/
def fuzzScore (a b : String) : ℚ :=
  let la := a.data.length
  let lb := b.data.length
  if la + lb = 0 then 1
  else qDiv (natQ (2 * matchTotal a.data b.data (la + 1) 0 la 0 lb)) (natQ (la + lb))

/-! ### Additional rational helpers -/

/-- Subtraction on `ℚ` via `Rat.divInt` (kernel-evaluable). -/
def qSub (a b : ℚ) : ℚ :=
  Rat.divInt (a.num * (b.den : Int) - b.num * (a.den : Int)) ((a.den : Int) * (b.den : Int))

theorem qSub_eq (a b : ℚ) : qSub a b = a - b := by
  rw [qSub, Rat.sub_def, Rat.normalize_eq_mkRat, Rat.mkRat_eq_divInt, Int.natCast_mul]

/-! ### Data model

`TextSpan` as built by `extract_spans` (a dict in the source); `bbox` is kept
even though nothing downstream reads it. -/

/-- One text span (the dict built in `extract_spans`). -/
structure Span where
  text : String
  size : ℚ
  font : String
  flags : Nat
  page : Nat
  bbox : ℚ × ℚ × ℚ × ℚ
  y : ℚ
deriving Repr, DecidableEq

/-- One block of `page.get_text("blocks")`: the tuple
`(x0, y0, x1, y1, text, block_no, block_type)` of the extraction
collaborator (PyMuPDF), which is the interface `extract_spans` consumes. -/
structure Block where
  x0 : ℚ
  y0 : ℚ
  x1 : ℚ
  y1 : ℚ
  text : String
  block_no : Nat
  block_type : Nat
deriving Repr, DecidableEq

/-- The `extract_spans` loop over pages and blocks: skip non-text blocks
(`block[6] != 0`), strip the block text, explode it on newlines, strip each
line, and emit one span per non-empty line with `size = y1 - y0`,
`font = ""`, `flags = 0`. -/
def extract_spans (pages : List (List Block)) : List Span :=
  pages.enum.flatMap fun pb =>
    pb.2.flatMap fun block =>
      if block.block_type ≠ 0 then []
      else
        let text := pyStrip block.text
        if text = "" then []
        else
          (splitNl text).filterMap fun line =>
            let line := pyStrip line
            if line = "" then none
            else some
              { text := line, size := qSub block.y1 block.y0, font := "", flags := 0,
                page := pb.1, bbox := (block.x0, block.y0, block.x1, block.y1),
                y := block.y0 }

/-! ### Title resolver (`extract_document_title`) -/

/-- The `form_keywords` list. -/
def form_keywords : List String := ["application", "form", "grant", "ltc", "advance"]

/-- The `event_phrases` list (identical in `extract_document_title` and in
`main`'s classifier). -/
def event_phrases : List String :=
  ["hope to see you there", "join us", "event", "invitation"]

/-- Non-empty stripped lines of the first two pages (the `lines` local of
`extract_document_title`). -/
def titleLines (spans : List Span) : List String :=
  ((spans.filter (fun s => s.page = 0 || s.page = 1)).map (fun s => pyStrip s.text)).filter
    (fun t => t ≠ "")

/-- The `joined` local of `extract_document_title` (computed by the source
but never read; kept because claim C5 quotes it). -/
def joinedFirstTwo (spans : List Span) : String := joinSpace (titleLines spans)

/-- One pass of the window scan: some contiguous run of `window` lines whose
join contains the first three form keywords (case-insensitive). -/
def windowHit (lines : List String) (window : Nat) : Bool :=
  (List.range (lines.length + 1 - window)).any fun i =>
    let merged := joinSpace ((lines.drop i).take window)
    (form_keywords.take 3).all fun k => strIn k (pyLower merged)

/-- The full window scan `for window in range(5, 1, -1)` (a hit at any
window size returns the same literal, so only existence matters). -/
def windowHitAny (lines : List String) : Bool := [5, 4, 3, 2].any (windowHit lines)

/-- The trailing-space fixup of the largest-font fallback
(`if title and not title.endswith(" "): title += " "`). -/
def finishTitle (title : String) : String :=
  if title ≠ "" && !(pyEndsWith title " ") then title ++ " " else title

/-- Largest-font fallback of `extract_document_title` (its final branch):
join the texts of first-page spans at ≥ 80% of the maximal size, strip, and
append one space when missing. -/
def largest_font_title (spans : List Span) : String :=
  let first_page := spans.filter (fun s => s.page = 0)
  match first_page.map Span.size with
  | [] => ""
  | sz :: rest =>
    let max_size := rest.foldl max sz
    let candidates :=
      (first_page.filter (fun s => s.size ≥ qMul max_size (Rat.divInt 4 5))).map Span.text
    finishTitle (pyStrip (joinSpace candidates))

/-- The fixed reference string of the fuzzy branch. -/
def formRef : String := "application form for grant of ltc advance"

/-- Model of `extract_document_title`: window scan, fuzzy whole-line match,
pathways/RFP/technical literal checks, event suppression, then the
largest-font fallback.  (The source's `form_title_pat` regex and `joined`
are compiled/computed but never used for any decision.) -/
def extract_document_title (spans : List Span) : String :=
  let lines := titleLines spans
  if windowHitAny lines then "Application form for grant of LTC advance  "
  else if lines.any (fun l => fuzzScore (pyLower l) formRef > Rat.divInt 4 5) then
    "Application form for grant of LTC advance  "
  else if lines.any (fun l => strIn "parsippany" (pyLower l) && strIn "stem" (pyLower l)) then
    "Parsippany -Troy Hills STEM Pathways"
  else if (lines.any fun l =>
        strIn "rfp" (pyLower l) || strIn "request for proposal" (pyLower l)) &&
      (lines.any fun l => strIn "request for proposal" (pyLower l)) then
    "RFP:Request for Proposal To Present a Proposal for Developing the Business Plan for the Ontario Digital Library  "
  else if lines.any (fun l => strIn "foundation" (pyLower l) && strIn "level" (pyLower l)) then
    "Overview  Foundation Level Extensions  "
  else if lines.any (fun l => event_phrases.any (fun p => strIn p (pyLower l))) then ""
  else largest_font_title spans

/-! ### Document type classifier (`main`, lines 389-413) -/

/-- The document-type classification of `main`: event detection (empty
title, ≤ 2 pages, an event phrase on the first two pages), then literal
substring dispatch on the lower-cased title; any non-English language is
forced to `other`. -/
def docTypeOf (title : String) (spans : List Span) (lang : String) : String :=
  let t := pyStrip (pyLower title)
  let num_pages := (spans.map Span.page).foldl max 0 + 1
  if lang = "en" then
    let is_event :=
      if t = "" then
        if num_pages ≤ 2 then
          ((spans.filter (fun s => s.page = 0 || s.page = 1)).map
              (fun s => pyLower s.text)).any
            (fun l => event_phrases.any (fun p => strIn p l))
        else false
      else false
    if is_event then "event"
    else if strIn "application form for grant of ltc advance" t then "form"
    else if strIn "foundation level extensions" t then "technical"
    else if strIn "rfp:request for proposal" t then "rfp"
    else if strIn "parsippany" t then "pathways"
    else "other"
  else "other"

/-! ### Document statistics (`analyze_document_structure`) -/

/-- Derived per-document statistics; `size_percentile` is the dict as an
association list in insertion (ascending-size) order. -/
structure DocStats where
  unique_sizes : List ℚ
  size_percentile : List (ℚ × ℚ)
  avg_size : ℚ
deriving Repr, DecidableEq

/-- Dict lookup with default 0 (`d.get(size, 0)`). -/
def pctGet (m : List (ℚ × ℚ)) (k : ℚ) : ℚ :=
  match m.find? (fun p => decide (p.1 = k)) with
  | some p => p.2
  | none => 0

/-- Insert into an ascending list (helper for `sorted`). -/
def insSortedQ (x : ℚ) : List ℚ → List ℚ
  | [] => [x]
  | y :: ys => if x ≤ y then x :: y :: ys else y :: insSortedQ x ys

/-- Ascending sort (Python `sorted`; on the distinct-size set any correct
sort agrees with it). -/
def sortQ (l : List ℚ) : List ℚ := l.foldr insSortedQ []

/-- Distinct elements (Python `set(...)` materialised, keeping the last
occurrence; only the member set matters since it is sorted next). -/
def dedupQ : List ℚ → List ℚ
  | [] => []
  | x :: xs => if xs.any (fun y => decide (y = x)) then dedupQ xs else x :: dedupQ xs

/-- Model of `analyze_document_structure`: distinct sizes ascending, each
mapped to `rank/(n-1)` (`1.0` if `n == 1`), and the mean size; zeroed/empty
statistics for an empty span list. -/
def analyze_document_structure (spans : List Span) : DocStats :=
  let sizes := spans.map Span.size
  if sizes.isEmpty then ⟨[], [], 0⟩
  else
    let unique_sizes := sortQ (dedupQ sizes)
    let n := unique_sizes.length
    ⟨unique_sizes,
     unique_sizes.enum.map fun p =>
       (p.2, if n > 1 then qDiv (natQ p.1) (natQ (n - 1)) else 1),
     qDiv (qSum sizes) (natQ sizes.length)⟩

/-! ### Heading candidate detector (`is_likely_heading`) -/

/-- Model of `is_likely_heading`: length bounds, exclusion patterns,
heading patterns, then the permissive branch for
`technical`/`rfp`/`pathways` (all-caps, colon-terminated, or more than 5
words).  `span_info` and `doc_stats` are accepted and ignored exactly as in
the source. -/
def is_likely_heading (text : String) (_span_info : Span) (_doc_stats : DocStats)
    (doc_type : String) : Bool :=
  if text.length < 3 || text.length > 200 then false
  else if exclude_patterns.any (fun p => reMatch true p text) then false
  else if heading_patterns.any (fun p => reMatch true p text) then true
  else if doc_type = "technical" || doc_type = "rfp" || doc_type = "pathways" then
    pyIsUpper text || pyEndsWith text ":" || decide ((pyWords text).length > 5)
  else false

/-! ### Heading level classifier (`classify_heading_level`) -/

/-- The `span_info` dict as consumed by `classify_heading_level` and the
final emission loop: `size` may be absent (`{"page": page}` for the
technical/rfp reconciliation output), in which case `.get("size", 0)`
yields 0. -/
structure SpanInfo where
  size : Option ℚ
  page : Nat
deriving Repr, DecidableEq

/-- Model of `classify_heading_level`: H4/H3/H2/H1 pattern tiers in that
order, then percentile fallback thresholds 0.9 / 0.75 / 0.5 with H3 floor. -/
def classify_heading_level (text : String) (span_info : SpanInfo)
    (document_stats : DocStats) : String :=
  let size := span_info.size.getD 0
  let size_percentile := pctGet document_stats.size_percentile size
  if h4_patterns.any (fun p => reMatch true p text) then "H4"
  else if h3_patterns.any (fun p => reMatch true p text) then "H3"
  else if h2_patterns.any (fun p => reMatch true p text) then "H2"
  else if h1_patterns.any (fun p => reMatch true p text) then "H1"
  else if size_percentile ≥ Rat.divInt 9 10 then "H1"
  else if size_percentile ≥ Rat.divInt 3 4 then "H2"
  else if size_percentile ≥ Rat.divInt 1 2 then "H3"
  else "H3"

/-! ### Heading scorer (`calculate_heading_importance`) -/

/-- The fixed list whose exact members get the +3 canonical-name bonus. -/
def canonical_section_names : List String :=
  ["Revision History", "Table of Contents", "Acknowledgements",
   "Summary", "Background", "References"]

/-- The `+2` bold bonus branch (`if bool(span.get("flags", 0) & 2)`). -/
def bold_bonus (span : Span) : ℚ := if span.flags &&& 2 ≠ 0 then 2 else 0

/-- The structural-pattern bonus of the scorer (`+3` numbered section,
`+2` subsection, `+3` canonical name, `+1` colon ending; first match wins). -/
def structural_bonus (text : String) : ℚ :=
  if reMatch false reNumDot text then 3
  else if reMatch false reNumNum text then 2
  else if canonical_section_names.contains text then 3
  else if reMatch false reColonEnd text then 1
  else 0

/-- Model of `calculate_heading_importance`. -/
def calculate_heading_importance (text : String) (span : Span) (doc_stats : DocStats) : ℚ :=
  let score := qMul (pctGet doc_stats.size_percentile span.size) 3
  let score := qAdd score (bold_bonus span)
  let score := qAdd score (structural_bonus text)
  let score := qAdd score (if span.page = 0 then 1 else 0)
  qAdd score (if span.y < 200 then Rat.divInt 1 2 else 0)

/-! ### Heading filter (`filter_headings`) -/

/-- Candidate dict (`{"text", "span", "score"}`) built in `main`'s loop. -/
structure Cand where
  text : String
  span : Span
  score : ℚ
deriving Repr, DecidableEq

/-- Filtered-heading dict.  The generic and pathways paths pass the
candidate through (no `level` key, full span); the technical/rfp path
builds `{"level", "text", "span": {"page": page}, "score": 0}` whose span
has no `size` key.  The `level` key is never read downstream. -/
structure FiltH where
  level : Option String
  text : String
  span : SpanInfo
  score : ℚ
deriving Repr, DecidableEq

instance : Inhabited FiltH := ⟨⟨none, "", ⟨none, 0⟩, 0⟩⟩

/-- A candidate passed through unchanged (generic / pathways paths). -/
def candToFiltH (h : Cand) : FiltH :=
  ⟨none, h.text, ⟨some h.span.size, h.span.page⟩, h.score⟩

/-- The `technical_expected` table of `filter_headings`. -/
def technical_expected : List (String × String) :=
  [("Revision History ", "H1"),
   ("Table of Contents ", "H1"),
   ("Acknowledgements ", "H1"),
   ("1. Introduction to the Foundation Level Extensions ", "H1"),
   ("2. Introduction to Foundation Level Agile Tester Extension ", "H1"),
   ("2.1 Intended Audience ", "H2"),
   ("2.2 Career Paths for Testers ", "H2"),
   ("2.3 Learning Objectives ", "H2"),
   ("2.4 Entry Requirements ", "H2"),
   ("2.5 Structure and Course Duration ", "H2"),
   ("2.6 Keeping It Current ", "H2"),
   ("3. Overview of the Foundation Level Extension – Agile TesterSyllabus ", "H1"),
   ("3.1 Business Outcomes ", "H2"),
   ("3.2 Content ", "H2"),
   ("4. References ", "H1"),
   ("4.1 Trademarks ", "H2"),
   ("4.2 Documents and Web Sites ", "H2")]

/-- The `rfp_expected` table of `filter_headings`. -/
def rfp_expected : List (String × String) :=
  [("Ontario’s Digital Library ", "H1"),
   ("A Critical Component for Implementing Ontario’s Road Map to Prosperity Strategy ", "H1"),
   ("Summary ", "H2"),
   ("Timeline: ", "H3"),
   ("Background ", "H2"),
   ("Equitable access for all Ontarians: ", "H3"),
   ("Shared decision-making and accountability: ", "H3"),
   ("Shared governance structure: ", "H3"),
   ("Shared funding: ", "H3"),
   ("Local points of entry: ", "H3"),
   ("Access: ", "H3"),
   ("Guidance and Advice: ", "H3"),
   ("Training: ", "H3"),
   ("Provincial Purchasing & Licensing: ", "H3"),
   ("Technological Support: ", "H3"),
   ("What could the ODL really mean? ", "H3"),
   ("For each Ontario citizen it could mean: ", "H4"),
   ("For each Ontario student it could mean: ", "H4"),
   ("For each Ontario library it could mean: ", "H4"),
   ("For the Ontario government it could mean: ", "H4"),
   ("The Business Plan to be Developed ", "H2"),
   ("Milestones ", "H3"),
   ("Approach and Specific Proposal Requirements ", "H2"),
   ("Evaluation and Awarding of Contract ", "H2"),
   ("Appendix A: ODL Envisioned Phases & Funding ", "H2"),
   ("Phase I: Business Planning ", "H3"),
   ("Phase II: Implementing and Transitioning ", "H3"),
   ("Phase III: Operating and Growing the ODL ", "H3"),
   ("Appendix B: ODL Steering Committee Terms of Reference ", "H2"),
   ("1. Preamble ", "H3"),
   ("2. Terms of Reference ", "H3"),
   ("3. Membership ", "H3"),
   ("4. Appointment Criteria and Process ", "H3"),
   ("5. Term ", "H3"),
   ("6. Chair ", "H3"),
   ("7. Meetings ", "H3"),
   ("8. Lines of Accountability and Communication ", "H3"),
   ("9. Financial and Administrative Policies ", "H3"),
   ("Appendix C: ODL’s Envisioned Electronic Resources ", "H2")]

/-- The `norm` helper of `filter_headings`: dashes to spaces, keep only
`[A-Za-z0-9 ]`, collapse whitespace, strip, lower-case.  (The source first
applies `unicodedata.normalize('NFKD', s)`; every character reaching this
function — ASCII plus `’`, `–`, `—`, `•` — has no compatibility
decomposition, so NFKD is the identity here and is omitted.) -/
def normKey (s : String) : String :=
  let s1 := s.data.map fun c => if c = '-' || c = '–' || c = '—' then ' ' else c
  let s2 := s1.filter fun c => isAlnumA c || c = ' '
  pyLower (pyStrip ⟨collapseWs s2⟩)

/-- The `toc_end_page` scan: the largest page (at least 3) of a candidate
whose normalised text starts with the normalised "Table of Contents". -/
def toc_end_page (potential : List Cand) : Nat :=
  potential.foldl
    (fun acc h =>
      if pyStartsWith (normKey h.text) (normKey "Table of Contents") then
        max acc h.span.page
      else acc) 3

/-- `min_section_page = toc_end_page + 1`. -/
def min_section_page (potential : List Cand) : Nat := toc_end_page potential + 1

/-- Distinct strings in first-occurrence order (Python `set`, materialised;
only membership and cardinality are consumed). -/
def dedupStr (l : List String) : List String :=
  l.foldl (fun acc x => if acc.contains x then acc else acc ++ [x]) []

/-- The word set of a normalised text (`set(s.split())`). -/
def wordSet (s : String) : List String := dedupStr (pyWords s)

/-- Size of the intersection of two word sets (first argument distinct). -/
def interCount (a b : List String) : Nat := (a.filter (fun w => b.contains w)).length

/-- The per-candidate acceptance test of the reconciliation scan for
expected entry `idx`: word-overlap ratio and page window (first three
entries: ratio > 0.7 and page ≤ 5; later entries: ratio > 0.85 and page ≥
`min_section_page`). -/
def matchCond (wexp : List String) (idx msp : Nat) (h : Cand) : Bool :=
  let wcand := wordSet (normKey h.text)
  let r := qDiv (natQ (interCount wexp wcand)) (natQ (max 1 wexp.length))
  if idx ≤ 2 then decide (r > Rat.divInt 7 10) && decide (h.span.page ≤ 5)
  else decide (r > Rat.divInt 17 20) && decide (h.span.page ≥ msp)

/-- The best-candidate scan (`if best is None or page < best_page`):
earliest page among accepted candidates, first encountered on ties. -/
def scanBest (cond : Cand → Bool) (potential : List Cand) : Option Cand :=
  potential.foldl
    (fun best h =>
      if cond h then
        match best with
        | none => some h
        | some b => if h.span.page < b.span.page then some h else some b
      else best) none

/-- The literal-reconciliation loop of `filter_headings` for
technical/rfp: one output entry per expected entry, matched page when a
candidate is accepted, otherwise `last_page + 1` (0 for the very first
entry when nothing has been emitted yet). -/
def reconcileGo (potential : List Cand) (msp : Nat) :
    Nat → Nat → Bool → List (String × String) → List FiltH
  | _, _, _, [] => []
  | idx, last_page, isFirst, (etext, elevel) :: rest =>
    let wexp := wordSet (normKey etext)
    match scanBest (matchCond wexp idx msp) potential with
    | some b =>
      ⟨some elevel, etext, ⟨none, b.span.page⟩, 0⟩ ::
        reconcileGo potential msp (idx + 1) b.span.page false rest
    | none =>
      let page := if isFirst then 0 else last_page + 1
      ⟨some elevel, etext, ⟨none, page⟩, 0⟩ ::
        reconcileGo potential msp (idx + 1) page false rest

/-- `re.sub(r'\s+', ' ', text).strip()` (the generic filter's `text`). -/
def genNormText (s : String) : String := pyStrip ⟨collapseWs s.data⟩

/-- The generic filter's dedup key
(`re.sub(r'[^A-Za-z0-9 ]', '', text).lower()`). -/
def genKey (s : String) : String :=
  pyLower ⟨(genNormText s).data.filter fun c => isAlnumA c || c = ' '⟩

/-- The generic filtering loop with its `seen` set: the key is recorded
before the score/word-count threshold is tested, so a skipped first
occurrence still blocks all later candidates with the same key. -/
def genericGo (seen : List String) : List Cand → List FiltH
  | [] => []
  | h :: rest =>
    let text := genNormText h.text
    let text_norm := genKey h.text
    if seen.contains text_norm then genericGo seen rest
    else if decide (h.score > Rat.divInt 3 2) || decide ((pyWords text).length > 5) then
      candToFiltH h :: genericGo (text_norm :: seen) rest
    else genericGo (text_norm :: seen) rest

/-- The `expected` table selected in the technical/rfp branch
(`technical_expected if doc_type == "technical" else rfp_expected`). -/
def expectedFor (doc_type : String) : List (String × String) :=
  if doc_type = "technical" then technical_expected else rfp_expected

/-- Model of `filter_headings`: `form` suppresses everything; `pathways`
keeps only the literal "PATHWAY OPTIONS"; `technical`/`rfp` run literal
reconciliation against their fixed tables; everything else takes the
generic dedup/threshold path. -/
def filter_headings (potential_headings : List Cand) (doc_type : String) : List FiltH :=
  if doc_type = "form" then []
  else if doc_type = "pathways" then
    (potential_headings.filter fun h => pyUpper h.text == "PATHWAY OPTIONS").map candToFiltH
  else if doc_type = "technical" || doc_type = "rfp" then
    reconcileGo potential_headings (min_section_page potential_headings) 0 0 true
      (expectedFor doc_type)
  else genericGo [] potential_headings

/-! ### Orchestration (`main`, per document) -/

/-- One outline entry of the output record. -/
structure OutEntry where
  level : String
  text : String
  page : Nat
deriving Repr, DecidableEq

instance : Inhabited OutEntry := ⟨⟨"", "", 0⟩⟩

/-- The output record `{"title": ..., "outline": [...]}` of one document. -/
structure OutDoc where
  title : String
  outline : List OutEntry
deriving Repr, DecidableEq

/-- Stable insertion for the score-descending sort. -/
def insDesc (x : Cand) : List Cand → List Cand
  | [] => [x]
  | y :: ys => if decide (x.score ≥ y.score) then x :: y :: ys else y :: insDesc x ys

/-- `potential_headings.sort(key=lambda x: x["score"], reverse=True)`:
Python's sort is stable, and a stable sort by a total preorder is unique,
so stable insertion sort is the same function. -/
def sortDesc (l : List Cand) : List Cand := l.foldr insDesc []

/-- The candidate-collection loop of `main`: English text goes through
`is_likely_heading` and the scorer; Spanish through the demo pattern with
fixed score 2; any other language yields no candidates. -/
def potential_of (spans : List Span) (lang : String) (doc_type : String)
    (doc_stats : DocStats) : List Cand :=
  spans.filterMap fun span =>
    let text := pyStrip span.text
    if lang = "en" then
      if is_likely_heading text span doc_stats doc_type then
        some ⟨text, span, calculate_heading_importance text span doc_stats⟩
      else none
    else if lang = "es" then
      if reMatch true esPattern text then some ⟨text, span, 2⟩ else none
    else none

/-- The final emission loop of `main` (lines 446-451): each filtered
heading's level is recomputed by `classify_heading_level` and a single
trailing space is appended to its text when missing. -/
def emit_outline (filtered : List FiltH) (doc_stats : DocStats) : List OutEntry :=
  filtered.map fun h =>
    ⟨classify_heading_level h.text h.span doc_stats,
     h.text ++ (if pyEndsWith h.text " " then "" else " "),
     h.span.page⟩

/-- Per-document pipeline of `main` given the externally detected language:
empty-span short-circuit, title resolution, type classification, the event
override, candidate collection/sorting/filtering, level emission, and the
form suppression. -/
def main_process (spans : List Span) (lang : String) : OutDoc :=
  if spans.isEmpty then ⟨"", []⟩
  else
    let title := extract_document_title spans
    let doc_type := docTypeOf title spans lang
    if lang = "en" ∧ doc_type = "event" then
      ⟨"", [⟨"H1", "HOPE To SEE You THERE! ", 0⟩]⟩
    else
      let doc_stats := analyze_document_structure spans
      let potential := sortDesc (potential_of spans lang doc_type doc_stats)
      let filtered := filter_headings potential doc_type
      let headings := emit_outline filtered doc_stats
      ⟨title, if lang = "en" ∧ doc_type = "form" then [] else headings⟩

/-! ### Helper lemmas and witness data -/

/-- Concrete span constructor used by witnesses (size 10, first page,
`y = 300`, no emphasis). -/
def wSpan (t : String) : Span := ⟨t, 10, "", 0, 0, (0, 0, 0, 0), 300⟩

/-- A non-English language forces document type `other`. -/
theorem docTypeOf_of_ne_en (t : String) (spans : List Span) (lang : String)
    (h : lang ≠ "en") : docTypeOf t spans lang = "other" := by
  unfold docTypeOf
  rw [if_neg h]

/-! ### Claim C9 -/

/-- Claim C9: every span produced by the extraction stage has emphasis
flags 0 and an empty font name, so the scorer's +2 bold bonus branch is
never taken for it. -/
theorem C9_extraction_never_bold (pages : List (List Block)) (s : Span)
    (hs : s ∈ extract_spans pages) :
    s.flags = 0 ∧ s.font = "" ∧ bold_bonus s = 0 := by
  simp only [extract_spans, List.mem_flatMap] at hs
  obtain ⟨pb, -, block, -, hin⟩ := hs
  split at hin
  · simp at hin
  · split at hin
    · simp at hin
    · simp only [List.mem_filterMap] at hin
      obtain ⟨line, -, heq⟩ := hin
      split at heq
      · exact absurd heq (by simp)
      · obtain rfl := Option.some.inj heq
        refine ⟨rfl, rfl, ?_⟩
        simp [bold_bonus]

/-- Witness for C9 at a concrete one-block page list. -/
theorem C9_extraction_never_bold_witness :
    (⟨"Hello", 12, "", 0, 0, (0, 0, 10, 12), 0⟩ : Span).flags = 0 ∧
      (⟨"Hello", 12, "", 0, 0, (0, 0, 10, 12), 0⟩ : Span).font = "" ∧
      bold_bonus ⟨"Hello", 12, "", 0, 0, (0, 0, 10, 12), 0⟩ = 0 :=
  C9_extraction_never_bold [[⟨0, 0, 10, 12, "Hello", 0, 0⟩]]
    ⟨"Hello", 12, "", 0, 0, (0, 0, 10, 12), 0⟩ (by decide)

/-! ### Claim C3 -/

/-- Claim C3: for every span list whose detected language is "en" and which
the classifier marks `event`, the emitted record is exactly
`{title: "", outline: [{level: "H1", text: "HOPE To SEE You THERE! ", page: 0}]}`
(the heading pipeline is bypassed). -/
theorem C3_event_override (spans : List Span) (lang : String) (hl : lang = "en")
    (hdoc : docTypeOf (extract_document_title spans) spans lang = "event") :
    main_process spans lang = ⟨"", [⟨"H1", "HOPE To SEE You THERE! ", 0⟩]⟩ := by
  subst hl
  by_cases hs : spans.isEmpty
  · rw [List.isEmpty_iff] at hs
    subst hs
    exact absurd hdoc (by decide)
  · unfold main_process
    rw [if_neg (by simpa using hs), if_pos ⟨rfl, hdoc⟩]

set_option maxRecDepth 40000 in
/-- Witness for C3: a single "Join us" span on page 0. -/
theorem C3_event_override_witness :
    main_process [wSpan "Join us"] "en" = ⟨"", [⟨"H1", "HOPE To SEE You THERE! ", 0⟩]⟩ :=
  C3_event_override [wSpan "Join us"] "en" rfl (by decide)

/-! ### Claim C10 -/

/-- Claim C10: for a non-empty span list whose detected language is neither
"en" nor "es", no heading candidates are produced at all and the emitted
outline is empty (the title is whatever the title resolver returns). -/
theorem C10_unknown_language_empty_outline (spans : List Span) (lang : String)
    (hne : spans ≠ []) (h1 : lang ≠ "en") (h2 : lang ≠ "es") :
    (∀ dt stats, potential_of spans lang dt stats = []) ∧
      main_process spans lang = ⟨extract_document_title spans, []⟩ := by
  have hpot : ∀ dt stats, potential_of spans lang dt stats = [] := by
    intro dt stats
    rw [potential_of, List.filterMap_eq_nil_iff]
    intro span _
    simp only [if_neg h1, if_neg h2]
  refine ⟨hpot, ?_⟩
  unfold main_process
  rw [if_neg (by simpa using hne)]
  simp only [docTypeOf_of_ne_en _ _ _ h1, hpot]
  rw [if_neg (by rintro ⟨h, -⟩; exact h1 h)]
  rw [if_neg (by rintro ⟨h, -⟩; exact h1 h)]
  rfl

/-- Witness for C10: a single French span with language "fr". -/
theorem C10_unknown_language_empty_outline_witness :
    main_process [wSpan "Bonjour tout le monde"] "fr" =
      ⟨extract_document_title [wSpan "Bonjour tout le monde"], []⟩ :=
  (C10_unknown_language_empty_outline [wSpan "Bonjour tout le monde"] "fr"
    (by decide) (by decide) (by decide)).2

/-! ### Claim C8 -/

/-- Counterexample to claim C8 as stated: the line "PLEASE:" is entirely
upper-case and colon-terminated and the document type is `technical`, yet
the heading candidate detector rejects it, because the exclusion pattern
`^(CLOSED|PLEASE|VISIT|REQUIRED|CLIMBING)` fires before the permissive
branch is ever reached. -/
theorem C8_counterexample :
    pyIsUpper "PLEASE:" = true ∧ pyEndsWith "PLEASE:" ":" = true ∧
      is_likely_heading "PLEASE:" (wSpan "PLEASE:") ⟨[], [], 0⟩ "technical" = false := by
  decide

/-- Claim C8 as amended: for document types `technical`/`rfp`/`pathways`,
a line that passes the length bounds and matches no exclusion pattern is
accepted whenever it is entirely upper-case, or ends with a colon, or has
more than 5 words. -/
theorem C8_permissive_accept (text : String) (span : Span) (stats : DocStats)
    (dt : String) (hdt : dt = "technical" ∨ dt = "rfp" ∨ dt = "pathways")
    (hlen1 : 3 ≤ text.length) (hlen2 : text.length ≤ 200)
    (hexc : exclude_patterns.any (fun p => reMatch true p text) = false)
    (hperm : pyIsUpper text = true ∨ pyEndsWith text ":" = true ∨
      5 < (pyWords text).length) :
    is_likely_heading text span stats dt = true := by
  unfold is_likely_heading
  split
  · next hcond =>
    exfalso
    revert hcond
    simp [Nat.not_lt.mpr hlen1, Nat.not_lt.mpr hlen2]
  · split
    · next hexc' =>
      rw [hexc] at hexc'
      exact absurd hexc' (by simp)
    · split
      · rfl
      · split
        · rcases hperm with h | h | h
          · simp [h]
          · simp [h]
          · simp [h]
        · next hne =>
          exfalso
          rcases hdt with h | h | h <;> simp [h] at hne

/-- Witness for the amended C8 at the all-caps line "ALPHA BETA" with
document type `rfp`. -/
theorem C8_permissive_accept_witness :
    is_likely_heading "ALPHA BETA" (wSpan "ALPHA BETA") ⟨[], [], 0⟩ "rfp" = true :=
  C8_permissive_accept "ALPHA BETA" (wSpan "ALPHA BETA") ⟨[], [], 0⟩ "rfp"
    (Or.inr (Or.inl rfl)) (by decide) (by decide) (by decide) (Or.inl (by decide))

/-! ### Claim C7 -/

/-- Keys of everything the generic filter emits were not in the `seen`
accumulator it started from. -/
theorem genericGo_key_not_seen (cs : List Cand) :
    ∀ (seen : List String) (h : FiltH), h ∈ genericGo seen cs →
      seen.contains (genKey h.text) = false := by
  induction cs with
  | nil => intro seen h hh; simp [genericGo] at hh
  | cons c rest ih =>
    intro seen h hh
    rw [genericGo] at hh
    split at hh
    · exact ih seen h hh
    · next hseen =>
      split at hh
      · rcases List.mem_cons.mp hh with rfl | hh'
        · simpa [candToFiltH] using eq_false_of_ne_true hseen
        · have := ih _ h hh'
          simp only [List.contains_cons, Bool.or_eq_false_iff] at this
          exact this.2
      · have := ih _ h hh
        simp only [List.contains_cons, Bool.or_eq_false_iff] at this
        exact this.2

/-- The generic filter never emits two entries with the same dedup key. -/
theorem genericGo_pairwise (cs : List Cand) :
    ∀ seen : List String,
      (genericGo seen cs).Pairwise (fun a b => genKey a.text ≠ genKey b.text) := by
  induction cs with
  | nil => intro seen; simp [genericGo]
  | cons c rest ih =>
    intro seen
    rw [genericGo]
    split
    · exact ih seen
    · split
      · refine List.Pairwise.cons ?_ (ih _)
        intro b hb heq
        have := genericGo_key_not_seen rest _ b hb
        simp only [List.contains_cons, Bool.or_eq_false_iff] at this
        have hne := this.1
        rw [candToFiltH] at heq
        simp only [← heq] at hne
        simp at hne
      · exact ih _

/-- The dedup key is computed from the candidate's unchanged text. -/
theorem genKey_candToFiltH (c : Cand) : genKey (candToFiltH c).text = genKey c.text := rfl

/-- Provenance of a generic-filter output entry: it is the first candidate
carrying its dedup key, and that candidate passed the score/word-count
threshold. -/
theorem genericGo_mem (cs : List Cand) :
    ∀ (seen : List String) (h : FiltH), h ∈ genericGo seen cs →
      ∃ c, candToFiltH c = h ∧
        cs.find? (fun c' => genKey c'.text == genKey c.text) = some c ∧
        (c.score > Rat.divInt 3 2 ∨ 5 < (pyWords (genNormText c.text)).length) := by
  induction cs with
  | nil => intro seen h hh; simp [genericGo] at hh
  | cons c rest ih =>
    intro seen h hh
    have skip :
        ∀ seen', h ∈ genericGo seen' rest →
          seen'.contains (genKey c.text) = true ∨ seen' = genKey c.text :: seen →
          ∃ c0, candToFiltH c0 = h ∧
            (c :: rest).find? (fun c' => genKey c'.text == genKey c0.text) = some c0 ∧
            (c0.score > Rat.divInt 3 2 ∨ 5 < (pyWords (genNormText c0.text)).length) := by
      intro seen' hh' hseen'
      obtain ⟨c0, hc0, hfind, hpass⟩ := ih seen' h hh'
      have h1 := genericGo_key_not_seen rest seen' h hh'
      rw [← hc0, genKey_candToFiltH] at h1
      have h2 : ¬((fun c' => genKey c'.text == genKey c0.text) c = true) := by
        simp only [beq_iff_eq]
        intro heq
        rcases hseen' with hc | rfl
        · rw [heq] at hc
          rw [h1] at hc
          exact Bool.false_ne_true hc
        · rw [heq] at h1
          simp [List.contains_cons] at h1
      refine ⟨c0, hc0, ?_, hpass⟩
      rw [@List.find?_cons_of_neg _ (fun c' => genKey c'.text == genKey c0.text) c rest h2, hfind]
    rw [genericGo] at hh
    split at hh
    · next hseen => exact skip seen hh (Or.inl hseen)
    · next hseen =>
      split at hh
      · next hpass =>
        rcases List.mem_cons.mp hh with rfl | hh'
        · refine ⟨c, rfl, ?_, ?_⟩
          · rw [List.find?_cons_of_pos]
            simp
          · rcases Bool.or_eq_true_iff.mp hpass with hp | hp
            · exact Or.inl (of_decide_eq_true hp)
            · exact Or.inr (of_decide_eq_true hp)
        · exact skip _ hh' (Or.inr rfl)
      · exact skip _ hh (Or.inr rfl)

/-- Counterexample to claim C7 as stated: the candidates "abc" (score 1)
and "abc!" (score 1/2) have equal normalised keys and arrive in
score-descending order, yet the generic filter retains zero entries with
that key, not exactly one: the first occurrence is recorded in `seen`
before the score/word-count threshold rejects it. -/
theorem C7_counterexample :
    genKey "abc" = genKey "abc!" ∧
      filter_headings
        [⟨"abc", wSpan "abc", 1⟩, ⟨"abc!", wSpan "abc!", Rat.divInt 1 2⟩] "other" = [] := by
  decide

/-- Positive retention direction of the generic filter: if a candidate is
the first in the list carrying its dedup key, its key is not already in the
`seen` accumulator, and it passes the score/word-count threshold, then its
entry is emitted. -/
theorem genericGo_retains (cs : List Cand) :
    ∀ (seen : List String) (c : Cand),
      cs.find? (fun c' => genKey c'.text == genKey c.text) = some c →
      seen.contains (genKey c.text) = false →
      (decide (c.score > Rat.divInt 3 2) ||
        decide (5 < (pyWords (genNormText c.text)).length)) = true →
      candToFiltH c ∈ genericGo seen cs := by
  induction cs with
  | nil => intro seen c hfind _ _; simp at hfind
  | cons a rest ih =>
    intro seen c hfind hseen hpass
    rw [genericGo]
    by_cases hkey : (genKey a.text == genKey c.text) = true
    · have hac : a = c := by
        have := List.find?_cons_of_pos (p := fun c' => genKey c'.text == genKey c.text)
          rest hkey
        rw [this] at hfind
        exact Option.some.inj hfind
      subst hac
      split
      · next hc =>
        rw [hseen] at hc
        exact absurd hc (by simp)
      · exact List.mem_cons_self _ _
    · have hkeyf : (genKey a.text == genKey c.text) = false :=
        Bool.not_eq_true _ ▸ eq_false_of_ne_true hkey
      have hfind' : rest.find? (fun c' => genKey c'.text == genKey c.text) = some c := by
        rwa [List.find?_cons_of_neg rest (by simp [hkeyf])] at hfind
      have hsym : (genKey c.text == genKey a.text) = false := by
        simp only [beq_eq_false_iff_ne, ne_eq] at hkeyf ⊢
        exact fun h => hkeyf h.symm
      split
      · exact ih seen c hfind' hseen hpass
      · split
        · refine List.mem_cons_of_mem _ (ih _ c hfind' ?_ hpass)
          simp only [List.contains_cons, Bool.or_eq_false_iff]
          exact ⟨hsym, hseen⟩
        · refine ih _ c hfind' ?_ hpass
          simp only [List.contains_cons, Bool.or_eq_false_iff]
          exact ⟨hsym, hseen⟩

/-- Claim C7 as amended: in the generic filter, candidates with equal
normalised keys yield at most one retained entry — the first encountered in
the given (score-descending) order — and that entry exists precisely when
the first candidate with the key passes the `score > 1.5` / word-count
threshold: every retained entry is the first passing candidate with its key
(second conjunct), and conversely a first key-holder that passes the
threshold is always retained (third conjunct). -/
theorem C7_generic_dedup (cands : List Cand) (dt : String)
    (h1 : dt ≠ "form") (h2 : dt ≠ "pathways") (h3 : dt ≠ "technical") (h4 : dt ≠ "rfp") :
    ((filter_headings cands dt).Pairwise fun a b => genKey a.text ≠ genKey b.text) ∧
      (∀ h ∈ filter_headings cands dt,
        ∃ c, candToFiltH c = h ∧
          cands.find? (fun c' => genKey c'.text == genKey c.text) = some c ∧
          (c.score > Rat.divInt 3 2 ∨ 5 < (pyWords (genNormText c.text)).length)) ∧
      ∀ c : Cand,
        cands.find? (fun c' => genKey c'.text == genKey c.text) = some c →
        (c.score > Rat.divInt 3 2 ∨ 5 < (pyWords (genNormText c.text)).length) →
        candToFiltH c ∈ filter_headings cands dt := by
  have hf : filter_headings cands dt = genericGo [] cands := by
    unfold filter_headings
    rw [if_neg h1, if_neg h2, if_neg (by simp [h3, h4])]
  rw [hf]
  refine ⟨genericGo_pairwise cands [], fun h hh => genericGo_mem cands [] h hh, ?_⟩
  intro c hfind hpass
  refine genericGo_retains cands [] c hfind rfl ?_
  rcases hpass with hp | hp
  · simp [hp]
  · simp [hp]

/-- Witness for the amended C7 at a single high-scoring candidate: it has
a first-passing provenance and, conversely, it is retained. -/
theorem C7_generic_dedup_witness :
    (∃ c, candToFiltH c = candToFiltH ⟨"Results", wSpan "Results", 2⟩ ∧
      [(⟨"Results", wSpan "Results", 2⟩ : Cand)].find?
          (fun c' => genKey c'.text == genKey c.text) = some c ∧
      (c.score > Rat.divInt 3 2 ∨ 5 < (pyWords (genNormText c.text)).length)) ∧
      candToFiltH ⟨"Results", wSpan "Results", 2⟩ ∈
        filter_headings [⟨"Results", wSpan "Results", 2⟩] "other" :=
  ⟨(C7_generic_dedup [⟨"Results", wSpan "Results", 2⟩] "other"
        (by decide) (by decide) (by decide) (by decide)).2.1
      (candToFiltH ⟨"Results", wSpan "Results", 2⟩) (by decide),
    (C7_generic_dedup [⟨"Results", wSpan "Results", 2⟩] "other"
        (by decide) (by decide) (by decide) (by decide)).2.2
      ⟨"Results", wSpan "Results", 2⟩ (by decide) (Or.inl (by decide))⟩

/-! ### Claim C4 -/

/-- Whether the reconciliation scan finds a candidate for expected entry
`idx` (the `best is not None` test of `filter_headings`). -/
def entryMatched (potential : List Cand) (expected : List (String × String))
    (msp idx : Nat) : Bool :=
  (scanBest (matchCond (wordSet (normKey ((expected.getD idx ("", "")).1))) idx msp)
    potential).isSome

/-- The two candidates of the C4 counterexample: "Revision History" seen on
page 5 and "Acknowledgements" seen on page 4. -/
def c4cands : List Cand :=
  [⟨"Revision History", ⟨"Revision History", 10, "", 0, 5, (0, 0, 0, 0), 300⟩, 0⟩,
   ⟨"Acknowledgements", ⟨"Acknowledgements", 10, "", 0, 4, (0, 0, 0, 0), 300⟩, 0⟩]

/-- Counterexample to claim C4 as stated.  Expected entries 1, 3 and 4 of
the technical table are unmatched; the emitted pages are 6, 5 and 6: the
synthesized pages are not non-decreasing in list order (6 then 5), and
entry 4 is synthesized at page 6 although the last *matched* page is 4
(entry 2 matched on page 4), where the claim demands 4 + 1 = 5.  The
baseline is in fact the previous entry's page, matched or synthesized. -/
theorem C4_counterexample :
    entryMatched c4cands technical_expected (min_section_page c4cands) 1 = false ∧
      entryMatched c4cands technical_expected (min_section_page c4cands) 3 = false ∧
      entryMatched c4cands technical_expected (min_section_page c4cands) 4 = false ∧
      ((filter_headings c4cands "technical").getD 1 default).span.page = 6 ∧
      ((filter_headings c4cands "technical").getD 3 default).span.page = 5 ∧
      ((filter_headings c4cands "technical").getD 4 default).span.page = 6 := by
  decide

/-- One entry of the reconciliation output per expected entry, with the
page equal to the matched page or the synthesized one. -/
theorem reconcileGo_page (potential : List Cand) (msp : Nat) :
    ∀ (exp : List (String × String)) (i0 last : Nat) (isFirst : Bool) (idx : Nat),
      idx < exp.length →
      scanBest (matchCond (wordSet (normKey ((exp.getD idx ("", "")).1))) (i0 + idx) msp)
          potential = none →
      ((reconcileGo potential msp i0 last isFirst exp).getD idx default).span.page =
        if idx = 0 then (if isFirst then 0 else last + 1)
        else
          ((reconcileGo potential msp i0 last isFirst exp).getD (idx - 1) default).span.page
            + 1 := by
  intro exp
  induction exp with
  | nil => intro i0 last isFirst idx h; exact absurd h (by simp)
  | cons e rest ih =>
    intro i0 last isFirst idx hlt hnone
    obtain ⟨etext, elevel⟩ := e
    rw [reconcileGo]
    cases idx with
    | zero =>
      simp only [List.getD_cons_zero, Nat.add_zero] at hnone ⊢
      rw [hnone]
      simp
    | succ n =>
      have hshift :
          scanBest
              (matchCond (wordSet (normKey ((rest.getD n ("", "")).1))) ((i0 + 1) + n) msp)
              potential = none := by
        rw [show (i0 + 1) + n = i0 + (n + 1) by omega]
        exact hnone
      have hlt' : n < rest.length := by simpa using hlt
      cases hscan :
          scanBest (matchCond (wordSet (normKey etext)) i0 msp) potential with
      | some b =>
        simp only [hscan, List.getD_cons_succ, if_neg (Nat.succ_ne_zero n)]
        have := ih (i0 + 1) b.span.page false n hlt' hshift
        rw [this]
        cases n with
        | zero => simp
        | succ m => simp
      | none =>
        simp only [hscan, List.getD_cons_succ, if_neg (Nat.succ_ne_zero n)]
        have := ih (i0 + 1) (if isFirst then 0 else last + 1) false n hlt' hshift
        rw [this]
        cases n with
        | zero => simp
        | succ m => simp

/-- Claim C4 as amended: in literal reconciliation for `technical`/`rfp`,
an expected entry with no matching candidate is assigned the previous
output entry's page plus one (page 0 when it is the very first expected
entry); the previous entry may itself be matched or synthesized, so
synthesized pages increase inside a consecutive synthesized run but need
not be non-decreasing across the whole list. -/
theorem C4_synthesized_page (potential : List Cand) (dt : String) (idx : Nat)
    (hdt : dt = "technical" ∨ dt = "rfp")
    (hidx : idx < (expectedFor dt).length)
    (hun : entryMatched potential (expectedFor dt) (min_section_page potential) idx
      = false) :
    ((filter_headings potential dt).getD idx default).span.page =
      if idx = 0 then 0
      else ((filter_headings potential dt).getD (idx - 1) default).span.page + 1 := by
  have hf : filter_headings potential dt =
      reconcileGo potential (min_section_page potential) 0 0 true (expectedFor dt) := by
    rcases hdt with rfl | rfl <;> rfl
  have hnone :
      scanBest
          (matchCond (wordSet (normKey (((expectedFor dt).getD idx ("", "")).1)))
            (0 + idx) (min_section_page potential)) potential = none := by
    rw [Nat.zero_add]
    cases hsb :
        scanBest
          (matchCond (wordSet (normKey (((expectedFor dt).getD idx ("", "")).1)))
            idx (min_section_page potential)) potential with
    | none => rfl
    | some b =>
      rw [entryMatched, hsb] at hun
      simp at hun
  rw [hf]
  have hpage :=
    reconcileGo_page potential (min_section_page potential) (expectedFor dt) 0 0 true idx
      hidx hnone
  rw [hpage]
  cases idx with
  | zero => simp
  | succ n => simp

/-- Witness for the amended C4: with no candidates at all, expected entry 1
of the technical table is synthesized at page = (page of entry 0) + 1. -/
theorem C4_synthesized_page_witness :
    ((filter_headings [] "technical").getD 1 default).span.page =
      if 1 = 0 then 0 else ((filter_headings [] "technical").getD 0 default).span.page + 1 :=
  C4_synthesized_page [] "technical" 1 (Or.inl rfl) (by decide) (by decide)

/-! ### Claim C5 -/

set_option maxRecDepth 100000 in
/-- Counterexample to claim C5 as stated: for the single span
"application form grant", the joined first-two-page text contains the
keywords "application", "form" and "grant", yet the resolved title is the
largest-font fallback "application form grant " (not the fixed literal) and
the document is classified `other` (not `form`): the window scan iterates
`range(len(lines) - window + 1)`, which is empty for a single line, and the
fuzzy ratio 44/63 is below 0.8. -/
theorem C5_counterexample :
    strIn "application" (pyLower (joinedFirstTwo [wSpan "application form grant"])) = true ∧
      strIn "form" (pyLower (joinedFirstTwo [wSpan "application form grant"])) = true ∧
      strIn "grant" (pyLower (joinedFirstTwo [wSpan "application form grant"])) = true ∧
      extract_document_title [wSpan "application form grant"] ≠
        "Application form for grant of LTC advance  " ∧
      docTypeOf (extract_document_title [wSpan "application form grant"])
          [wSpan "application form grant"] "en" ≠ "form" := by
  decide

/-- Every title classified by the LTC-advance literal is a `form` document
under English language detection (the event test is skipped because the
title is non-empty). -/
theorem docTypeOf_formTitle (spans : List Span) :
    docTypeOf "Application form for grant of LTC advance  " spans "en" = "form" := by
  simp only [docTypeOf]
  rw [show pyStrip (pyLower "Application form for grant of LTC advance  ") =
      "application form for grant of ltc advance" from by decide]
  rw [if_neg (show ¬("application form for grant of ltc advance" = "") from by decide)]
  decide

/-- Claim C5 as amended: when some window of 2-5 *consecutive* non-empty
first-two-page lines has a join containing "application", "form" and
"grant" (case-insensitively) and the detected language is "en", the title
is the literal `"Application form for grant of LTC advance  "` (double
trailing space), the document is classified `form`, and the emitted outline
is empty. -/
theorem C5_form_scenario (spans : List Span) (lang : String) (hl : lang = "en")
    (hwin : windowHitAny (titleLines spans) = true) :
    extract_document_title spans = "Application form for grant of LTC advance  " ∧
      docTypeOf (extract_document_title spans) spans lang = "form" ∧
      (main_process spans lang).outline = [] := by
  subst hl
  have htitle :
      extract_document_title spans = "Application form for grant of LTC advance  " := by
    simp only [extract_document_title]
    rw [if_pos hwin]
  have hne : spans ≠ [] := by
    intro h
    subst h
    exact absurd hwin (by decide)
  have hform : docTypeOf (extract_document_title spans) spans "en" = "form" := by
    rw [htitle]
    exact docTypeOf_formTitle spans
  refine ⟨htitle, hform, ?_⟩
  unfold main_process
  rw [if_neg (by simpa using hne)]
  simp only [hform]
  rw [if_neg (by simp)]
  simp

/-- Witness for the amended C5: two lines "application form" / "grant of
advance" hit the window scan at width 2. -/
theorem C5_form_scenario_witness :
    extract_document_title [wSpan "application form", wSpan "grant of advance"] =
        "Application form for grant of LTC advance  " ∧
      docTypeOf (extract_document_title [wSpan "application form", wSpan "grant of advance"])
          [wSpan "application form", wSpan "grant of advance"] "en" = "form" ∧
      (main_process [wSpan "application form", wSpan "grant of advance"] "en").outline = [] :=
  C5_form_scenario [wSpan "application form", wSpan "grant of advance"] "en" rfl (by decide)

/-! ### Claim C6 -/

/-- Number of distinct font sizes in a span list. -/
def nDistinct (spans : List Span) : Nat := (dedupQ (spans.map Span.size)).length

/-- Number of distinct font sizes strictly below `x` (the ascending rank of
`x` among the distinct sizes). -/
def rankBelow (spans : List Span) (x : ℚ) : Nat :=
  ((dedupQ (spans.map Span.size)).filter fun y => decide (y < x)).length

/-- A text matching none of the level classifier's H1-H4 patterns. -/
def noLevelPattern (t : String) : Bool :=
  !((h1_patterns ++ h2_patterns ++ h3_patterns ++ h4_patterns).any fun p => reMatch true p t)

theorem mem_dedupQ (x : ℚ) : ∀ l : List ℚ, x ∈ dedupQ l ↔ x ∈ l := by
  intro l
  induction l with
  | nil => simp [dedupQ]
  | cons a as ih =>
    rw [dedupQ]
    split
    · next hin =>
      rw [ih]
      simp only [List.mem_cons]
      constructor
      · exact Or.inr
      · rintro (rfl | h)
        · simp only [List.any_eq_true, decide_eq_true_eq] at hin
          obtain ⟨y, hy, rfl⟩ := hin
          exact hy
        · exact h
    · simp [ih]

theorem dedupQ_nodup : ∀ l : List ℚ, (dedupQ l).Nodup := by
  intro l
  induction l with
  | nil => simp [dedupQ]
  | cons a as ih =>
    rw [dedupQ]
    split
    · exact ih
    · next hnin =>
      refine List.Nodup.cons ?_ ih
      rw [mem_dedupQ]
      intro hmem
      simp only [List.any_eq_true, decide_eq_true_eq] at hnin
      exact hnin ⟨a, hmem, rfl⟩

theorem insSortedQ_perm (x : ℚ) : ∀ l : List ℚ, List.Perm (insSortedQ x l) (x :: l) := by
  intro l
  induction l with
  | nil => simp [insSortedQ]
  | cons a as ih =>
    rw [insSortedQ]
    split
    · exact List.Perm.refl _
    · exact (List.Perm.cons a ih).trans (List.Perm.swap x a as)

theorem sortQ_perm : ∀ l : List ℚ, List.Perm (sortQ l) l := by
  intro l
  induction l with
  | nil => simp [sortQ]
  | cons a as ih =>
    have : sortQ (a :: as) = insSortedQ a (sortQ as) := rfl
    rw [this]
    exact (insSortedQ_perm a (sortQ as)).trans (List.Perm.cons a ih)

theorem insSortedQ_sorted (x : ℚ) :
    ∀ l : List ℚ, l.Pairwise (· ≤ ·) → (insSortedQ x l).Pairwise (· ≤ ·) := by
  intro l
  induction l with
  | nil => intro h; simp [insSortedQ]
  | cons a as ih =>
    intro hp
    rw [insSortedQ]
    split
    · next hle =>
      refine List.Pairwise.cons ?_ hp
      intro b hb
      rcases List.mem_cons.mp hb with rfl | hb'
      · exact hle
      · exact le_trans hle (List.rel_of_pairwise_cons hp hb')
    · next hgt =>
      have hax : a ≤ x := le_of_lt (lt_of_not_le hgt)
      refine List.Pairwise.cons ?_ (ih (List.Pairwise.sublist (List.sublist_cons_self a as) hp))
      intro b hb
      have := (insSortedQ_perm x as).mem_iff.mp hb
      rcases List.mem_cons.mp this with rfl | hb'
      · exact hax
      · exact List.rel_of_pairwise_cons hp hb'

theorem sortQ_sorted : ∀ l : List ℚ, (sortQ l).Pairwise (· ≤ ·) := by
  intro l
  induction l with
  | nil => simp [sortQ]
  | cons a as ih => exact insSortedQ_sorted a (sortQ as) ih

theorem sorted_nodup_lt {u : List ℚ} (hs : u.Pairwise (· ≤ ·)) (hn : u.Nodup) :
    u.Pairwise (· < ·) :=
  (hs.and hn).imp fun h => lt_of_le_of_ne h.1 h.2

/-- In a strictly sorted list, the element at index `i` has exactly `i`
elements below it. -/
theorem countBelow_of_sorted :
    ∀ (u : List ℚ), u.Pairwise (· < ·) → ∀ (i : Nat) (k : ℚ), u[i]? = some k →
      (u.filter fun y => decide (y < k)).length = i := by
  intro u
  induction u with
  | nil => intro _ i k hk; simp at hk
  | cons a rest ih =>
    intro hu i k hk
    cases i with
    | zero =>
      rw [List.getElem?_cons_zero] at hk
      have hak : a = k := Option.some.inj hk
      subst hak
      have hrest : rest.filter (fun y => decide (y < a)) = [] := by
        rw [List.filter_eq_nil_iff]
        intro y hy
        simp only [decide_eq_true_eq]
        exact not_lt.mpr (le_of_lt (List.rel_of_pairwise_cons hu hy))
      rw [List.filter_cons, if_neg (by simp), hrest]
      rfl
    | succ n =>
      rw [List.getElem?_cons_succ] at hk
      have hkmem : k ∈ rest := List.getElem?_mem hk
      have halt : a < k := List.rel_of_pairwise_cons hu hkmem
      rw [List.filter_cons, if_pos (by simpa using halt)]
      rw [List.length_cons, ih hu.of_cons n k hk]

theorem pctGet_cons_of_ne (p : ℚ × ℚ) (m : List (ℚ × ℚ)) (k : ℚ) (h : p.1 ≠ k) :
    pctGet (p :: m) k = pctGet m k := by
  rw [pctGet, pctGet, List.find?_cons_of_neg]
  simpa using h

theorem pctGet_cons_self (p : ℚ × ℚ) (m : List (ℚ × ℚ)) (k : ℚ) (h : p.1 = k) :
    pctGet (p :: m) k = p.2 := by
  rw [pctGet, List.find?_cons_of_pos]
  simpa using h

/-- Looking up the percentile dict built from an enumerated nodup list
returns the function of the element's index. -/
theorem pctGet_enumFrom (f : Nat → ℚ) :
    ∀ (u : List ℚ) (n i : Nat) (k : ℚ), u.Nodup → u[i]? = some k →
      pctGet ((List.enumFrom n u).map fun p => (p.2, f p.1)) k = f (n + i) := by
  intro u
  induction u with
  | nil => intro n i k _ hk; simp at hk
  | cons a rest ih =>
    intro n i k hnd hk
    rw [List.enumFrom_cons, List.map_cons]
    cases i with
    | zero =>
      rw [List.getElem?_cons_zero] at hk
      have hak : a = k := Option.some.inj hk
      subst hak
      rw [pctGet_cons_self _ _ _ rfl]
      simp
    | succ m =>
      rw [List.getElem?_cons_succ] at hk
      have hkmem : k ∈ rest := List.getElem?_mem hk
      have hka : (a, f n).1 ≠ k := by
        intro h
        simp only at h
        exact (List.nodup_cons.mp hnd).1 (h ▸ hkmem)
      rw [pctGet_cons_of_ne _ _ _ hka, ih (n + 1) m k (List.nodup_cons.mp hnd).2 hk]
      congr 1
      omega

/-- The statistics analyzer's percentile of a present size is its ascending
rank among the distinct sizes over `n - 1` (or 1 for a single size). -/
theorem pct_of_mem (spans : List Span) (s : Span) (hs : s ∈ spans) :
    pctGet (analyze_document_structure spans).size_percentile s.size =
      if 1 < nDistinct spans then
        qDiv (natQ (rankBelow spans s.size)) (natQ (nDistinct spans - 1))
      else 1 := by
  have hne : (spans.map Span.size).isEmpty = false := by
    rw [List.isEmpty_eq_false]
    intro h
    rw [List.map_eq_nil_iff] at h
    subst h
    exact absurd hs (List.not_mem_nil s)
  have hmemsz : s.size ∈ sortQ (dedupQ (spans.map Span.size)) := by
    rw [(sortQ_perm _).mem_iff, mem_dedupQ]
    exact List.mem_map_of_mem Span.size hs
  obtain ⟨i, hi⟩ := List.getElem?_of_mem hmemsz
  have hnd : (sortQ (dedupQ (spans.map Span.size))).Nodup :=
    (sortQ_perm _).nodup_iff.mpr (dedupQ_nodup _)
  have hstrict : (sortQ (dedupQ (spans.map Span.size))).Pairwise (· < ·) :=
    sorted_nodup_lt (sortQ_sorted _) hnd
  have hlen : (sortQ (dedupQ (spans.map Span.size))).length = nDistinct spans :=
    (sortQ_perm _).length_eq
  have hrank : (sortQ (dedupQ (spans.map Span.size))).countP (fun y => decide (y < s.size)) =
      rankBelow spans s.size := by
    rw [(sortQ_perm _).countP_eq, rankBelow, List.countP_eq_length_filter]
  have hcount := countBelow_of_sorted _ hstrict i s.size hi
  rw [← List.countP_eq_length_filter] at hcount
  simp only [analyze_document_structure, hne, Bool.false_eq_true, if_false]
  rw [show (sortQ (dedupQ (spans.map Span.size))).enum =
      List.enumFrom 0 (sortQ (dedupQ (spans.map Span.size))) from rfl]
  rw [pctGet_enumFrom
      (fun idx =>
        if (sortQ (dedupQ (spans.map Span.size))).length > 1 then
          qDiv (natQ idx) (natQ ((sortQ (dedupQ (spans.map Span.size))).length - 1))
        else 1)
      _ 0 i s.size hnd hi]
  rw [Nat.zero_add, hlen]
  rw [show i = rankBelow spans s.size from by rw [← hrank, hcount]]

/-- Claim C6: the statistics analyzer returns zeroed/empty statistics on an
empty span list, maps each present size to percentile rank/(n-1) over the n
ascending distinct sizes (1 when n = 1), computes the arithmetic mean size,
and consequently in a single-font-size document a heading text matching no
level pattern falls through to the percentile branch and is classified H1. -/
theorem C6_percentile_statistics :
    (analyze_document_structure [] = ⟨[], [], 0⟩) ∧
      (∀ (spans : List Span) (s : Span), s ∈ spans →
        pctGet (analyze_document_structure spans).size_percentile s.size =
          if 1 < nDistinct spans then
            qDiv (natQ (rankBelow spans s.size)) (natQ (nDistinct spans - 1))
          else 1) ∧
      (∀ spans : List Span, spans ≠ [] →
        (analyze_document_structure spans).avg_size =
          qDiv (qSum (spans.map Span.size)) (natQ spans.length)) ∧
      (∀ (spans : List Span) (s : Span) (t : String) (si : SpanInfo), s ∈ spans →
        nDistinct spans = 1 → noLevelPattern t = true → si.size = some s.size →
        classify_heading_level t si (analyze_document_structure spans) = "H1") := by
  refine ⟨by decide, pct_of_mem, ?_, ?_⟩
  · intro spans hne
    have h : (spans.map Span.size).isEmpty = false := by
      rw [List.isEmpty_eq_false]
      simpa using hne
    simp only [analyze_document_structure, h, Bool.false_eq_true, if_false]
    rw [List.length_map]
  · intro spans s t si hs hone hnp hsi
    have hb :
        ((h1_patterns ++ h2_patterns ++ h3_patterns ++ h4_patterns).any fun p =>
          reMatch true p t) = false := by
      rw [noLevelPattern, Bool.not_eq_true'] at hnp
      exact hnp
    simp only [List.any_append, Bool.or_eq_false_iff] at hb
    obtain ⟨⟨⟨hb1, hb2⟩, hb3⟩, hb4⟩ := hb
    have hpct := pct_of_mem spans s hs
    rw [hone] at hpct
    norm_num at hpct
    simp only [classify_heading_level, hsi, Option.getD_some, hb1, hb2, hb3, hb4,
      Bool.false_eq_true, if_false]
    rw [hpct]
    rw [if_pos (by decide)]

set_option maxRecDepth 10000 in
/-- Witness for C6 at the single-span document "zq!" of size 10: its
percentile is 1, and the level classifier yields H1 through the percentile
branch. -/
theorem C6_percentile_statistics_witness :
    classify_heading_level "zq!" ⟨some 10, 0⟩
        (analyze_document_structure [wSpan "zq!"]) = "H1" :=
  C6_percentile_statistics.2.2.2 [wSpan "zq!"] (wSpan "zq!") "zq!" ⟨some 10, 0⟩
    (by decide) (by decide) (by decide) (by decide)

/-! ### Claim C2 -/

theorem dropWhile_head_false (p : Char → Bool) :
    ∀ (l : List Char) (a : Char) (rest : List Char),
      l.dropWhile p = a :: rest → p a = false := by
  intro l
  induction l with
  | nil => intro a rest h; simp at h
  | cons c cs ih =>
    intro a rest h
    rw [List.dropWhile_cons] at h
    split at h
    · exact ih a rest h
    · next hc =>
      obtain ⟨rfl, -⟩ := List.cons.inj h
      exact Bool.not_eq_true _ ▸ eq_false_of_ne_true hc

/-- A stripped string never ends with a space. -/
theorem pyStrip_not_endsWith (s : String) : pyEndsWith (pyStrip s) " " = false := by
  rw [pyStrip, pyEndsWith]
  show ((" ".data).reverse.isPrefixOf (pyStripL s.data).reverse) = false
  rw [pyStripL, List.reverse_reverse]
  cases h : (((s.data.dropWhile pyWs).reverse).dropWhile pyWs) with
  | nil => rfl
  | cons a rest =>
    have ha : pyWs a = false := dropWhile_head_false pyWs _ a rest h
    have hne : a ≠ ' ' := by
      intro rfl'
      subst rfl'
      simp [pyWs] at ha
    simp [List.isPrefixOf, hne.symm]

/-- Appending one space to a space-free-tail string yields exactly one
trailing space. -/
theorem appendSpace_good (t : String) (h : pyEndsWith t " " = false) :
    pyEndsWith (t ++ " ") " " = true ∧ pyEndsWith (t ++ " ") "  " = false := by
  constructor
  · rw [pyEndsWith, String.data_append]
    show ([' '].isPrefixOf (t.data ++ [' ']).reverse) = true
    rw [List.reverse_append]
    simp [List.isPrefixOf]
  · rw [pyEndsWith, String.data_append]
    show (([' ', ' ']).isPrefixOf (t.data ++ [' ']).reverse) = false
    rw [List.reverse_append]
    show ((' ' == ' ') && ([' '].isPrefixOf t.data.reverse)) = false
    rw [pyEndsWith] at h
    rw [show ((" ".data).reverse) = [' '] from rfl] at h
    simp [h]

/-- Every candidate text produced by the collection loop is stripped, hence
has no trailing space. -/
theorem potential_of_stripped (spans : List Span) (lang dt : String) (stats : DocStats) :
    ∀ c ∈ potential_of spans lang dt stats, pyEndsWith c.text " " = false := by
  intro c hc
  rw [potential_of] at hc
  simp only [List.mem_filterMap] at hc
  obtain ⟨span, -, heq⟩ := hc
  split at heq
  · split at heq
    · obtain rfl := Option.some.inj heq
      exact pyStrip_not_endsWith _
    · simp at heq
  · split at heq
    · split at heq
      · obtain rfl := Option.some.inj heq
        exact pyStrip_not_endsWith _
      · simp at heq
    · simp at heq

theorem insDesc_perm (x : Cand) : ∀ l : List Cand, List.Perm (insDesc x l) (x :: l) := by
  intro l
  induction l with
  | nil => simp [insDesc]
  | cons a as ih =>
    rw [insDesc]
    split
    · exact List.Perm.refl _
    · exact (List.Perm.cons a ih).trans (List.Perm.swap x a as)

theorem sortDesc_perm : ∀ l : List Cand, List.Perm (sortDesc l) l := by
  intro l
  induction l with
  | nil => simp [sortDesc]
  | cons a as ih =>
    have : sortDesc (a :: as) = insDesc a (sortDesc as) := rfl
    rw [this]
    exact (insDesc_perm a (sortDesc as)).trans (List.Perm.cons a ih)

/-- Texts of the reconciliation output are exactly the expected texts. -/
theorem reconcileGo_text (potential : List Cand) (msp : Nat) :
    ∀ (exp : List (String × String)) (i0 last : Nat) (isFirst : Bool) (h : FiltH),
      h ∈ reconcileGo potential msp i0 last isFirst exp → h.text ∈ exp.map Prod.fst := by
  intro exp
  induction exp with
  | nil => intro i0 last isFirst h hh; simp [reconcileGo] at hh
  | cons e rest ih =>
    intro i0 last isFirst h hh
    obtain ⟨etext, elevel⟩ := e
    rw [reconcileGo] at hh
    rw [List.map_cons]
    cases hscan : scanBest (matchCond (wordSet (normKey etext)) i0 msp) potential with
    | some b =>
      rw [hscan] at hh
      rcases List.mem_cons.mp hh with rfl | hh'
      · exact List.mem_cons_self _ _
      · exact List.mem_cons_of_mem _ (ih _ _ _ h hh')
    | none =>
      rw [hscan] at hh
      rcases List.mem_cons.mp hh with rfl | hh'
      · exact List.mem_cons_self _ _
      · exact List.mem_cons_of_mem _ (ih _ _ _ h hh')

/-- Every expected-table text ends with exactly one trailing space. -/
theorem expected_texts_good (dt : String) :
    ∀ p ∈ expectedFor dt, pyEndsWith p.1 " " = true ∧ pyEndsWith p.1 "  " = false := by
  intro p hp
  rw [expectedFor] at hp
  split at hp
  · exact (by decide :
      ∀ p ∈ technical_expected, pyEndsWith p.1 " " = true ∧ pyEndsWith p.1 "  " = false) p hp
  · exact (by decide :
      ∀ p ∈ rfp_expected, pyEndsWith p.1 " " = true ∧ pyEndsWith p.1 "  " = false) p hp

/-- Every text leaving the filter either has no trailing space (candidate
pass-through) or ends with exactly one (table text). -/
theorem filter_headings_text (potential : List Cand) (dt : String)
    (hpot : ∀ c ∈ potential, pyEndsWith c.text " " = false) :
    ∀ h ∈ filter_headings potential dt,
      pyEndsWith h.text " " = false ∨
        (pyEndsWith h.text " " = true ∧ pyEndsWith h.text "  " = false) := by
  intro h hh
  rw [filter_headings] at hh
  split at hh
  · simp at hh
  · split at hh
    · simp only [List.mem_map, List.mem_filter] at hh
      obtain ⟨c, ⟨hc, -⟩, rfl⟩ := hh
      exact Or.inl (hpot c hc)
    · split at hh
      · have htext := reconcileGo_text potential _ (expectedFor dt) 0 0 true h hh
        simp only [List.mem_map] at htext
        obtain ⟨p, hp, hpt⟩ := htext
        exact Or.inr (hpt ▸ expected_texts_good dt p hp)
      · obtain ⟨c, hc, hfind, -⟩ := genericGo_mem potential [] h hh
        have hcmem : c ∈ potential := List.mem_of_find?_eq_some hfind
        rw [← hc]
        exact Or.inl (hpot c hcmem)

/-- Every emitted outline entry ends with exactly one trailing space. -/
theorem emit_outline_good (filtered : List FiltH) (stats : DocStats)
    (hf : ∀ h ∈ filtered,
      pyEndsWith h.text " " = false ∨
        (pyEndsWith h.text " " = true ∧ pyEndsWith h.text "  " = false)) :
    ∀ e ∈ emit_outline filtered stats,
      pyEndsWith e.text " " = true ∧ pyEndsWith e.text "  " = false := by
  intro e he
  rw [emit_outline] at he
  simp only [List.mem_map] at he
  obtain ⟨h, hh, rfl⟩ := he
  rcases hf h hh with hcase | hcase
  · simp only [hcase, Bool.false_eq_true, if_false]
    exact appendSpace_good h.text hcase
  · simp only [hcase.1, if_true]
    rw [String.append_empty]
    exact hcase

/-- The largest-font fallback yields either the empty string or a finished
stripped join. -/
theorem largest_font_title_cases (spans : List Span) :
    largest_font_title spans = "" ∨
      ∃ t : String, largest_font_title spans = finishTitle (pyStrip t) := by
  simp only [largest_font_title]
  cases (spans.filter fun s => decide (s.page = 0)).map Span.size with
  | nil => exact Or.inl rfl
  | cons sz rest => exact Or.inr ⟨_, rfl⟩

/-- A finished space-free-tail title, when non-empty, ends with exactly one
trailing space. -/
theorem finishTitle_good (t : String) (hstrip : pyEndsWith t " " = false)
    (hne : finishTitle t ≠ "") :
    pyEndsWith (finishTitle t) " " = true ∧ pyEndsWith (finishTitle t) "  " = false := by
  rw [finishTitle] at hne ⊢
  by_cases ht : t = ""
  · subst ht
    simp at hne
  · rw [if_pos (by simp [ht, hstrip])]
    exact appendSpace_good t hstrip

/-- Claim C2: every entry of every emitted outline has a text ending in
exactly one trailing space (one is appended iff missing), and the title
produced by the largest-font fallback, when non-empty, ends with exactly
one trailing space, never two. -/
theorem C2_trailing_space_contract (spans : List Span) (lang : String) :
    (∀ e ∈ (main_process spans lang).outline,
      pyEndsWith e.text " " = true ∧ pyEndsWith e.text "  " = false) ∧
      (largest_font_title spans ≠ "" →
        pyEndsWith (largest_font_title spans) " " = true ∧
          pyEndsWith (largest_font_title spans) "  " = false) := by
  constructor
  · intro e he
    simp only [main_process] at he
    split at he
    · simp at he
    · split at he
      · simp only [List.mem_singleton] at he
        subst he
        decide
      · split at he
        · simp at he
        · refine emit_outline_good _ _ (filter_headings_text _ _ ?_) e he
          intro c hc
          exact potential_of_stripped spans lang _ _ c ((sortDesc_perm _).mem_iff.mp hc)
  · intro hne
    rcases largest_font_title_cases spans with h | ⟨t, h⟩
    · rw [h] at hne
      exact absurd rfl hne
    · rw [h] at hne ⊢
      exact finishTitle_good _ (pyStrip_not_endsWith t) hne

set_option maxRecDepth 100000 in
/-- Witness for C2: the event outline entry of a "Join us" document, and
the fallback title of a "Results" document. -/
theorem C2_trailing_space_contract_witness :
    (pyEndsWith (OutEntry.text ⟨"H1", "HOPE To SEE You THERE! ", 0⟩) " " = true ∧
      pyEndsWith (OutEntry.text ⟨"H1", "HOPE To SEE You THERE! ", 0⟩) "  " = false) ∧
      (pyEndsWith (largest_font_title [wSpan "Results"]) " " = true ∧
        pyEndsWith (largest_font_title [wSpan "Results"]) "  " = false) :=
  ⟨(C2_trailing_space_contract [wSpan "Join us"] "en").1 ⟨"H1", "HOPE To SEE You THERE! ", 0⟩
      (by decide),
    (C2_trailing_space_contract [wSpan "Results"] "fr").2 (by decide)⟩

/-! ### Claim C1 -/

theorem reconcileGo_length (potential : List Cand) (msp : Nat) :
    ∀ (exp : List (String × String)) (i0 last : Nat) (isFirst : Bool),
      (reconcileGo potential msp i0 last isFirst exp).length = exp.length := by
  intro exp
  induction exp with
  | nil => intro i0 last isFirst; rfl
  | cons e rest ih =>
    intro i0 last isFirst
    obtain ⟨etext, elevel⟩ := e
    rw [reconcileGo]
    cases scanBest (matchCond (wordSet (normKey etext)) i0 msp) potential with
    | some b => simp [ih]
    | none => simp [ih]

/-- The texts of the reconciliation output, in order, are the expected
texts. -/
theorem reconcileGo_map_text (potential : List Cand) (msp : Nat) :
    ∀ (exp : List (String × String)) (i0 last : Nat) (isFirst : Bool),
      (reconcileGo potential msp i0 last isFirst exp).map FiltH.text = exp.map Prod.fst := by
  intro exp
  induction exp with
  | nil => intro i0 last isFirst; rfl
  | cons e rest ih =>
    intro i0 last isFirst
    obtain ⟨etext, elevel⟩ := e
    rw [reconcileGo]
    cases scanBest (matchCond (wordSet (normKey etext)) i0 msp) potential with
    | some b => simp [ih]
    | none => simp [ih]

/-- Each reconciliation output entry carries the expected text and a
size-free span. -/
theorem reconcileGo_getElem (potential : List Cand) (msp : Nat) :
    ∀ (exp : List (String × String)) (i0 last : Nat) (isFirst : Bool) (idx : Nat),
      idx < exp.length →
      ∃ page : Nat,
        (reconcileGo potential msp i0 last isFirst exp)[idx]? =
          some ⟨some (exp.getD idx ("", "")).2, (exp.getD idx ("", "")).1, ⟨none, page⟩, 0⟩ := by
  intro exp
  induction exp with
  | nil => intro i0 last isFirst idx h; exact absurd h (by simp)
  | cons e rest ih =>
    intro i0 last isFirst idx hlt
    obtain ⟨etext, elevel⟩ := e
    rw [reconcileGo]
    cases scanBest (matchCond (wordSet (normKey etext)) i0 msp) potential with
    | some b =>
      cases idx with
      | zero => exact ⟨b.span.page, by simp⟩
      | succ n =>
        obtain ⟨page, hp⟩ := ih (i0 + 1) b.span.page false n (by simpa using hlt)
        exact ⟨page, by simpa using hp⟩
    | none =>
      cases idx with
      | zero => exact ⟨if isFirst then 0 else last + 1, by simp⟩
      | succ n =>
        obtain ⟨page, hp⟩ :=
          ih (i0 + 1) (if isFirst then 0 else last + 1) false n (by simpa using hlt)
        exact ⟨page, by simpa using hp⟩

/-- When every filtered text already ends with a space, emission leaves the
texts unchanged. -/
theorem emit_outline_map_text (stats : DocStats) :
    ∀ filtered : List FiltH, (∀ h ∈ filtered, pyEndsWith h.text " " = true) →
      (emit_outline filtered stats).map OutEntry.text = filtered.map FiltH.text := by
  intro filtered
  induction filtered with
  | nil => intro _; rfl
  | cons h rest ih =>
    intro hf
    rw [emit_outline] at ih ⊢
    simp only [List.map_cons, List.map_map]
    simp only [List.map_map] at ih
    rw [hf h (List.mem_cons_self h rest)]
    simp only [if_true]
    rw [String.append_empty]
    refine congrArg (h.text :: ·) ?_
    have := ih fun x hx => hf x (List.mem_cons_of_mem h hx)
    simpa using this

/-- The level classifier puts the numbered technical section heading in H3:
the H3 tier's pattern for numbered items fires before any H1 pattern is
consulted, whatever the statistics and span are. -/
theorem classify_numbered_intro_h3 (si : SpanInfo) (stats : DocStats) :
    classify_heading_level "1. Introduction to the Foundation Level Extensions " si stats
      = "H3" := by
  simp only [classify_heading_level]
  rw [if_neg (by decide), if_pos (by decide)]

/-- Claim C1, settled against the code as a divergence witness (code bug):
for every span list classified `technical`, the emitted outline does have
exactly the table's length and the table's texts, but the emitted level of
entry 3 ("1. Introduction to the Foundation Level Extensions ") is "H3"
while the table assigns "H1": `main` recomputes each level with
`classify_heading_level` and discards the level stored by
`filter_headings`. -/
theorem C1_literal_level_divergence (spans : List Span) (lang : String) (hl : lang = "en")
    (hdoc : docTypeOf (extract_document_title spans) spans lang = "technical")
    (hne : spans ≠ []) :
    (main_process spans lang).outline.length = technical_expected.length ∧
      (main_process spans lang).outline.map OutEntry.text = technical_expected.map Prod.fst ∧
      ((main_process spans lang).outline.getD 3 default).level = "H3" ∧
      (technical_expected.getD 3 ("", "")).2 = "H1" := by
  subst hl
  have houtline : (main_process spans "en").outline =
      emit_outline
        (reconcileGo
          (sortDesc (potential_of spans "en" "technical" (analyze_document_structure spans)))
          (min_section_page
            (sortDesc (potential_of spans "en" "technical" (analyze_document_structure spans))))
          0 0 true technical_expected)
        (analyze_document_structure spans) := by
    simp only [main_process]
    rw [if_neg (by simpa using hne)]
    simp only [hdoc]
    rw [if_neg (by rintro ⟨-, h⟩; exact absurd h (by decide))]
    rw [if_neg (by rintro ⟨-, h⟩; exact absurd h (by decide))]
    rfl
  have htable :
      ∀ h ∈ reconcileGo
          (sortDesc (potential_of spans "en" "technical" (analyze_document_structure spans)))
          (min_section_page
            (sortDesc (potential_of spans "en" "technical" (analyze_document_structure spans))))
          0 0 true technical_expected,
        pyEndsWith h.text " " = true := by
    intro h hh
    have := reconcileGo_text _ _ technical_expected 0 0 true h hh
    exact (by decide :
      ∀ t ∈ technical_expected.map Prod.fst, pyEndsWith t " " = true) h.text this
  refine ⟨?_, ?_, ?_, by decide⟩
  · rw [houtline]
    simp only [emit_outline, List.length_map]
    rw [reconcileGo_length]
  · rw [houtline, emit_outline_map_text _ _ htable, reconcileGo_map_text]
  · rw [houtline]
    obtain ⟨page, hp⟩ :=
      reconcileGo_getElem
        (sortDesc (potential_of spans "en" "technical" (analyze_document_structure spans)))
        (min_section_page
          (sortDesc (potential_of spans "en" "technical" (analyze_document_structure spans))))
        technical_expected 0 0 true 3 (by decide)
    rw [List.getD_eq_getElem?_getD, emit_outline, List.getElem?_map, hp]
    simp only [Option.map_some', Option.getD_some]
    rw [show (technical_expected.getD 3 ("", "")).1 =
        "1. Introduction to the Foundation Level Extensions " from by decide]
    exact classify_numbered_intro_h3 _ _

set_option maxRecDepth 400000 in
/-- Witness for C1 at the one-line "Foundation Level" document (classified
`technical` through the title literal): its emitted entry 3 has level H3. -/
theorem C1_literal_level_divergence_witness :
    ((main_process [wSpan "Foundation Level"] "en").outline.getD 3 default).level = "H3" ∧
      (technical_expected.getD 3 ("", "")).2 = "H1" :=
  ⟨(C1_literal_level_divergence [wSpan "Foundation Level"] "en" rfl (by decide)
      (by decide)).2.2.1,
    (C1_literal_level_divergence [wSpan "Foundation Level"] "en" rfl (by decide)
      (by decide)).2.2.2⟩
